import Mathlib

/-
Shallow embedding of the exam-seating core (src/models/student.py, room.py,
exam_session.py, seating_allocator.py and src/utils/constants.py).

Python integers are modelled as Int (room dimensions may be negative in the
pathological cases the spec discusses).  Python `range` is modelled by
`pyRange` / `pyRange1` (empty for a nonpositive bound).  Python floor
division `// 2` is modelled by Int division, which in Lean is Euclidean
division and agrees with floor division for the positive divisor 2.
Mutation is modelled by explicit state passing; an IndexError raised by
`Room.set_seat` is modelled by a Bool flag, with the room state returned
unchanged (the check precedes the write in the source).
-/

set_option maxHeartbeats 1000000

namespace Seating

/-- Student record from src/models/student.py.  `branch_name` is an
`Option String` because in Python it may be `None`; the empty string and
`None` are the two falsy values the statistics code tests for. -/
structure Student where
  hallticket_no : String
  year : Option Int
  semester : Option Int
  regulation : Option String
  branch_name : Option String
deriving DecidableEq, Repr

/-- Static branch code table from src/utils/constants.py. -/
def BRANCH_CODES : List (String × String) :=
  [("01", "CIV"), ("02", "EEE"), ("03", "MECH"), ("04", "ECE"), ("05", "CSE"),
   ("12", "IT"), ("21", "AERO"), ("66", "CSM"), ("27", "XYZ")]

/-- Membership test and lookup in the static table (Python `in` / `[]` on the dict). -/
def lookupBranchCode (code : String) : Option String :=
  (BRANCH_CODES.find? (fun p => p.1 == code)).map (fun p => p.2)

/-- Python string slice s[a:b] (by code points, as Python does). -/
def pySlice (s : String) (a b : Nat) : String :=
  String.mk ((s.data.drop a).take (b - a))

/-- Student._get_branch_from_hallticket: derive the branch label from the
hallticket number.  Total, hence it never raises. -/
def getBranchFromHallticket (hallticket_no : String) : String :=
  if hallticket_no.length = 10 then
    let branch_code := pySlice hallticket_no 6 8
    match lookupBranchCode branch_code with
    | some name => name
    | none => ""
  else ""

/-- Student.__init__: the branch is derived from the hallticket exactly when
none was supplied and the hallticket has length 10. -/
def mkStudent (hallticket_no : String) (year semester : Option Int)
    (regulation : Option String) (branch_name : Option String) : Student :=
  { hallticket_no := hallticket_no
    year := year
    semester := semester
    regulation := regulation
    branch_name :=
      if branch_name.isNone ∧ hallticket_no.length = 10 then
        some (getBranchFromHallticket hallticket_no)
      else branch_name }

/-- Room record from src/models/room.py.  The grid is a list of rows, each a
list of optional seat occupants. -/
structure Room where
  room_no : String
  rows : Int
  columns : Int
  seating_grid : List (List (Option Student))
deriving DecidableEq, Repr

/-- Room.__init__: grid initialised to rows x columns of None (empty when a
dimension is nonpositive, as Python list multiplication gives). -/
def mkRoom (room_no : String) (rows columns : Int) : Room :=
  { room_no := room_no
    rows := rows
    columns := columns
    seating_grid := List.replicate rows.toNat (List.replicate columns.toNat none) }

/-- Room.capacity: rows * columns, a plain product of Python ints. -/
def Room.capacity (room : Room) : Int :=
  room.rows * room.columns

/-- Read a grid cell (total helper; in the source every in-bounds read is
grid[row][column]). -/
def Room.cell (room : Room) (r c : Nat) : Option Student :=
  (room.seating_grid.getD r []).getD c none

/-- Room.set_seat: bounds check first, then write.  The Bool is true when the
source raises IndexError; in that case the grid is untouched because the
check precedes the assignment. -/
def Room.set_seat (room : Room) (row column : Int) (student : Student) :
    Room × Bool :=
  if row < 0 ∨ row ≥ room.rows ∨ column < 0 ∨ column ≥ room.columns then
    (room, true)
  else
    let newRow := (room.seating_grid.getD row.toNat []).set column.toNat (some student)
    ({ room with seating_grid := room.seating_grid.set row.toNat newRow }, false)

/-- Room.clear_all_seats: rebuild the grid with None everywhere. -/
def Room.clear_all_seats (room : Room) : Room :=
  { room with seating_grid :=
      List.replicate room.rows.toNat (List.replicate room.columns.toNat none) }

/-- Python range(n) over an Int bound: 0, 1, ..., n-1, empty for n <= 0. -/
def pyRange (n : Int) : List Int :=
  (List.range n.toNat).map (fun k : Nat => (k : Int))

/-- Python range(1, n + 1) over an Int bound: 1, ..., n, empty for n <= 0. -/
def pyRange1 (n : Int) : List Int :=
  (List.range n.toNat).map (fun k : Nat => (k : Int) + 1)

/-- Room.is_seat_empty for an in-bounds cell. -/
def Room.is_seat_empty (room : Room) (r c : Nat) : Bool :=
  (room.cell r c).isNone

/-- Room.get_empty_seats_count: scan range(rows) x range(columns) counting
empty cells. -/
def Room.get_empty_seats_count (room : Room) : Nat :=
  ((List.range room.rows.toNat).flatMap (fun r =>
    (List.range room.columns.toNat).map (fun c => room.cell r c))).countP
    (fun cell => cell.isNone)

/-- List of students actually seated in the grid, in row-major order. -/
def Room.occupants (room : Room) : List Student :=
  (room.seating_grid.map (fun rw => rw.filterMap id)).flatten

/-- ExamSession from src/models/exam_session.py, restricted to the fields the
allocator and statistics read (exam_name and date are display-only). -/
structure ExamSession where
  students : List Student
  rooms : List Room
deriving DecidableEq, Repr

/-- ExamSession.get_total_capacity. -/
def ExamSession.get_total_capacity (s : ExamSession) : Int :=
  (s.rooms.map Room.capacity).sum

/-- ExamSession.has_sufficient_capacity. -/
def ExamSession.has_sufficient_capacity (s : ExamSession) : Bool :=
  decide ((s.students.length : Int) ≤ s.get_total_capacity)

/-- One step of the grouping loop in ExamSession.get_students_by_branch: the
Python dict is insertion-ordered, modelled as an association list; appending
a student to an existing group keeps the key position, a new branch key goes
to the end. -/
def addToGroups (groups : List (Option String × List Student)) (st : Student) :
    List (Option String × List Student) :=
  match groups with
  | [] => [(st.branch_name, [st])]
  | (b, l) :: rest =>
    if b = st.branch_name then (b, l ++ [st]) :: rest
    else (b, l) :: addToGroups rest st

/-- ExamSession.get_students_by_branch: stable grouping of the roster by
branch_name, in first-seen key order. -/
def ExamSession.get_students_by_branch (s : ExamSession) :
    List (Option String × List Student) :=
  s.students.foldl addToGroups []

/-- The index-directed distribution loop of
SeatingAllocator._create_even_odd_lists: group 0 becomes even_list, group 1
becomes odd_list, each later group goes wholesale to odd_list when even_list
is strictly longer, otherwise to even_list. -/
def distributeGroups : List (List Student) → Nat →
    List (Option Student) → List (Option Student) →
    List (Option Student) × List (Option Student)
  | [], _, even_list, odd_list => (even_list, odd_list)
  | g :: rest, i, even_list, odd_list =>
    if i = 0 then distributeGroups rest (i + 1) (g.map some) odd_list
    else if i = 1 then distributeGroups rest (i + 1) even_list (g.map some)
    else if even_list.length > odd_list.length then
      distributeGroups rest (i + 1) even_list (odd_list ++ g.map some)
    else distributeGroups rest (i + 1) (even_list ++ g.map some) odd_list

/-- SeatingAllocator._create_even_odd_lists: distribute the branch groups and
pad the shorter list with None up to the longer length. -/
def create_even_odd_lists (branch_groups : List (List Student)) :
    List (Option Student) × List (Option Student) :=
  let p := distributeGroups branch_groups 0 [] []
  let even_list := p.1
  let odd_list := p.2
  let max_length := max even_list.length odd_list.length
  (even_list ++ List.replicate (max_length - even_list.length) none,
   odd_list ++ List.replicate (max_length - odd_list.length) none)

/-- Body of the innermost loop of _allocate_alternating_seats: look at the
cursor, seat the entry when it is a real student, always advance the cursor. -/
def seat_step (lst : List (Option Student)) (colT : Int) (acc : Room × Nat)
    (rowv : Int) : Room × Nat :=
  let rm := acc.1
  let k := acc.2
  let rm2 :=
    if h : k < lst.length then
      match lst.get ⟨k, h⟩ with
      | some student => (rm.set_seat (rowv - 1) colT student).1
      | none => rm
    else rm
  (rm2, k + 1)

/-- Inner row loop of _allocate_alternating_seats: for a fixed target column,
walk the rows 1..rows top to bottom. -/
def row_walk (rm : Room) (lst : List (Option Student)) (colT : Int)
    (rowsI : Int) (k : Nat) : Room × Nat :=
  (pyRange1 rowsI).foldl (seat_step lst colT) (rm, k)

/-- Outer column loop of _allocate_alternating_seats, for one band: the
column counter runs over cols and colMap sends it to the 0-based target
column. -/
def band_walk (rm : Room) (lst : List (Option Student)) (cols : List Int)
    (colMap : Int → Int) (rowsI : Int) (k : Nat) : Room × Nat :=
  cols.foldl (fun acc col => row_walk acc.1 lst (colMap col) rowsI acc.2) (rm, k)

/-- SeatingAllocator._allocate_alternating_seats: odd 1-based columns
(0-based 0, 2, 4, ...) consume odd_list, even 1-based columns (0-based
1, 3, 5, ...) consume even_list; both cursors are taken and returned so the
caller can thread them across rooms. -/
def allocate_alternating_seats (room : Room)
    (even_list odd_list : List (Option Student)) (odd_index even_index : Nat) :
    Room × Nat × Nat :=
  let columns := room.columns
  let rows := room.rows
  let odd_cols := (columns + 1) / 2
  let even_cols := columns - odd_cols
  let r1 := band_walk room odd_list (pyRange1 odd_cols)
    (fun odd_col => odd_col * 2 - 1 - 1) rows odd_index
  let r2 := band_walk r1.1 even_list (pyRange1 even_cols)
    (fun even_col => even_col * 2 - 1) rows even_index
  (r2.1, r1.2, r2.2)

/-- SeatingAllocator._allocate_sequential_seats: plain column-major fill with
a cursor k that starts at 0 on every call. -/
def allocate_sequential_seats (room : Room) (students : List (Option Student)) :
    Room :=
  let res := (pyRange room.columns).foldl (fun acc col =>
    (pyRange room.rows).foldl (fun acc2 rowv =>
      let rm := acc2.1
      let k := acc2.2
      let rm2 :=
        if h : k < students.length then
          match students.get ⟨k, h⟩ with
          | some student => (rm.set_seat rowv col student).1
          | none => rm
        else rm
      (rm2, k + 1)) acc) (room, 0)
  res.1

/-- Body of the per-room loop of SeatingAllocator.allocate_seats: clear the
room, skip it when both queues are empty, use the alternating walk when more
than one branch group exists, the sequential walk otherwise; the two cursors
are threaded through the accumulator (they are allocator state shared by all
rooms of one call). -/
def allocate_room_step (branch_groups : List (Option String × List Student))
    (even_list odd_list : List (Option Student))
    (acc : List Room × Nat × Nat) (room : Room) : List Room × Nat × Nat :=
  let done := acc.1
  let odd_index := acc.2.1
  let even_index := acc.2.2
  let room0 := room.clear_all_seats
  if even_list.isEmpty && odd_list.isEmpty then
    (done ++ [room0], odd_index, even_index)
  else if branch_groups.length > 1 then
    let r := allocate_alternating_seats room0 even_list odd_list
      odd_index even_index
    (done ++ [r.1], r.2.1, r.2.2)
  else
    (done ++ [allocate_sequential_seats room0 (even_list ++ odd_list)],
     odd_index, even_index)

/-- SeatingAllocator.allocate_seats: capacity gate, grouping, queue building,
then the per-room loop threading the two cursors; rooms are cleared
unconditionally inside the loop. -/
def allocate_seats (s : ExamSession) : Bool × ExamSession :=
  if !s.has_sufficient_capacity then (false, s)
  else
    let branch_groups := s.get_students_by_branch
    let lists := create_even_odd_lists (branch_groups.map Prod.snd)
    let final := s.rooms.foldl (allocate_room_step branch_groups lists.1 lists.2)
      (([] : List Room), 0, 0)
    (true, { s with rooms := final.1 })

/-- Per-room statistics record from SeatingAllocator.generate_statistics. -/
structure RoomStats where
  capacity : Int
  assigned_seats : Int
  branch_distribution : List (String × Nat)
deriving DecidableEq, Repr

/-- Session statistics record from SeatingAllocator.generate_statistics. -/
structure SessionStats where
  total_students : Nat
  total_rooms : Nat
  total_capacity : Int
  rooms_stats : List (String × RoomStats)
  branch_stats : List (Option String × Nat)
deriving DecidableEq, Repr

/-- Python `d[k] = d.get(k, 0) + 1` pattern on an insertion-ordered dict. -/
def incrKey : List (String × Nat) → String → List (String × Nat)
  | [], k => [(k, 1)]
  | (k0, n) :: rest, k =>
    if k0 = k then (k0, n + 1) :: rest else (k0, n) :: incrKey rest k

/-- The branch_distribution loop of generate_statistics: scan the grid in
range(rows) x range(columns) order and count seated students whose
branch_name is truthy (neither None nor the empty string). -/
def room_branch_distribution (room : Room) : List (String × Nat) :=
  (List.range room.rows.toNat).foldl (fun d r =>
    (List.range room.columns.toNat).foldl (fun d2 c =>
      match room.cell r c with
      | some student =>
        match student.branch_name with
        | some b => if b = "" then d2 else incrKey d2 b
        | none => d2
      | none => d2) d) []

/-- Python dict assignment on an insertion-ordered dict keyed by room_no:
replace in place on an existing key, append otherwise. -/
def dict_set (l : List (String × RoomStats)) (k : String) (v : RoomStats) :
    List (String × RoomStats) :=
  match l with
  | [] => [(k, v)]
  | (k0, v0) :: rest =>
    if k0 = k then (k0, v) :: rest else (k0, v0) :: dict_set rest k v

/-- SeatingAllocator.generate_statistics. -/
def generate_statistics (s : ExamSession) : SessionStats :=
  { total_students := s.students.length
    total_rooms := s.rooms.length
    total_capacity := s.get_total_capacity
    branch_stats := (s.get_students_by_branch).map (fun p => (p.1, p.2.length))
    rooms_stats := s.rooms.foldl (fun acc room =>
      dict_set acc room.room_no
        { capacity := room.capacity
          assigned_seats := room.capacity - (room.get_empty_seats_count : Int)
          branch_distribution := room_branch_distribution room }) [] }

/-- Well-formedness of a room grid: the shape the constructor and
clear_all_seats establish. -/
def Room.WF (room : Room) : Prop :=
  room.seating_grid.length = room.rows.toNat ∧
  ∀ rw ∈ room.seating_grid, rw.length = room.columns.toNat

/-- The loop of _create_even_odd_lists from the third group on, written the
way the spec describes it: a later group goes wholesale to B exactly when A
is currently strictly longer, otherwise to A. -/
def appendRestSpec : List (List Student) → List (Option Student) →
    List (Option Student) → List (Option Student) × List (Option Student)
  | [], A, B => (A, B)
  | g :: rest, A, B =>
    if A.length > B.length then appendRestSpec rest A (B ++ g.map some)
    else appendRestSpec rest (A ++ g.map some) B

/-- Pad the shorter of the two queues with empty placeholders until the
lengths agree. -/
def padEqual (p : List (Option Student) × List (Option Student)) :
    List (Option Student) × List (Option Student) :=
  (p.1 ++ List.replicate (max p.1.length p.2.length - p.1.length) none,
   p.2 ++ List.replicate (max p.1.length p.2.length - p.2.length) none)

/-- Modelled from the spec wording of the queue construction (claim C5): the
first branch group becomes queue A entirely, the second becomes queue B
entirely, each later group is appended wholesale to B exactly when
len(A) > len(B) at that moment, and finally the shorter queue is padded with
empty placeholders.  Compared against create_even_odd_lists below. -/
def queuesSpec : List (List Student) → List (Option Student) × List (Option Student)
  | [] => padEqual ([], [])
  | [g0] => padEqual (g0.map some, [])
  | g0 :: g1 :: rest => padEqual (appendRestSpec rest (g0.map some) (g1.map some))

/-- Number of odd-band target columns of a room: Python (columns + 1) // 2,
clamped to Nat for counting loop iterations. -/
def oddColsN (room : Room) : Nat :=
  ((room.columns + 1) / 2).toNat

/-- Number of even-band target columns of a room: Python
columns - (columns + 1) // 2, clamped to Nat. -/
def evenColsN (room : Room) : Nat :=
  (room.columns - (room.columns + 1) / 2).toNat

/-- Cursor steps the odd band of one room consumes. -/
def oddStepsOf (room : Room) : Nat :=
  oddColsN room * room.rows.toNat

/-- Cursor steps the even band of one room consumes. -/
def evenStepsOf (room : Room) : Nat :=
  evenColsN room * room.rows.toNat

/-- Value of the running odd cursor when room k starts being filled. -/
def oddStart (rooms : List Room) (k : Nat) : Nat :=
  ((rooms.take k).map oddStepsOf).sum

/-- Value of the running even cursor when room k starts being filled. -/
def evenStart (rooms : List Room) (k : Nat) : Nat :=
  ((rooms.take k).map evenStepsOf).sum

/-- Effect of one cursor step of the alternating walk on a cell holding old:
a real student at the cursor overwrites, a missing or placeholder entry
leaves the cell alone. -/
def altVal (lst : List (Option Student)) (i : Nat) (old : Option Student) :
    Option Student :=
  match lst[i]? with
  | some (some st) => some st
  | _ => old

/-- Closed form of the alternating fill of one cleared room: 0-based even
columns (1-based odd positions) read odd_list, 0-based odd columns read
even_list, column-major top to bottom, offset by the running cursors. -/
def altCell (odd_list even_list : List (Option Student))
    (oddStart0 evenStart0 rowsN r c : Nat) : Option Student :=
  if c % 2 = 0 then (odd_list[oddStart0 + c / 2 * rowsN + r]?).join
  else (even_list[evenStart0 + c / 2 * rowsN + r]?).join

/-- Multiset of zero or one student held by a cell. -/
def optMS (o : Option Student) : Multiset Student :=
  match o with
  | some st => {st}
  | none => 0

/-- Closed-form result of the alternating walk on one room: the grid is the
rows x columns table of altCell values at the given cursor offsets. -/
def altRoom (room : Room) (odd_list even_list : List (Option Student))
    (oi ei : Nat) : Room :=
  { room with seating_grid :=
      (List.range room.rows.toNat).map (fun r =>
        (List.range room.columns.toNat).map (fun c =>
          altCell odd_list even_list oi ei room.rows.toNat r c)) }

/-- Closed-form result of the whole multi-branch room loop, with the two
running cursors advanced by the band step counts of each room in turn. -/
def altRooms (odd_list even_list : List (Option Student)) :
    Nat → Nat → List Room → List Room
  | _, _, [] => []
  | oi, ei, room :: rest =>
    altRoom room odd_list even_list oi ei ::
      altRooms odd_list even_list (oi + oddStepsOf room) (ei + evenStepsOf room) rest

/-- Concrete fixture: an ECE student. -/
def studentECE (n : Nat) : Student :=
  ⟨"ECE" ++ toString n, none, none, none, some "ECE"⟩

/-- Concrete fixture: a CSE student. -/
def studentCSE (n : Nat) : Student :=
  ⟨"CSE" ++ toString n, none, none, none, some "CSE"⟩

/-- Concrete fixture: a student whose derived branch label is empty (unknown
branch code 99). -/
def emptyBranchStudent : Student :=
  ⟨"21321A9901", none, none, none, some ""⟩

/-- Fixture for claim C1: 1 ECE + 2 CSE students and one 3-rows by 1-column
room, so total capacity 3 equals the roster size. -/
def dropSession : ExamSession :=
  ⟨[studentECE 1, studentCSE 1, studentCSE 2], [mkRoom "101" 3 1]⟩

/-- Fixture for claims C1/C3/C6: 3 ECE then 3 CSE students and one 3x3 room. -/
def twoBranchSession : ExamSession :=
  ⟨[studentECE 1, studentECE 2, studentECE 3,
    studentCSE 1, studentCSE 2, studentCSE 3], [mkRoom "101" 3 3]⟩

/-- Fixture for claim C3: one ECE then one CSE student and one 1x2 room. -/
def swapSession : ExamSession :=
  ⟨[studentECE 1, studentCSE 1], [mkRoom "101" 1 2]⟩

/-- Fixture for claim C4: a single-branch roster of one student and two 1x1
rooms. -/
def twoRoomSingleBranchSession : ExamSession :=
  ⟨[studentCSE 1], [mkRoom "A" 1 1, mkRoom "B" 1 1]⟩

/-- Fixture for claim C9: a session holding one room with negative rows. -/
def negativeDimSession : ExamSession :=
  ⟨[], [mkRoom "R" (-2) 3]⟩

/-- Fixture for claim C8: a 1x1 room seating a student whose branch label is
the empty string. -/
def emptyBranchSession : ExamSession :=
  ⟨[emptyBranchStudent], [⟨"U", 1, 1, [[some emptyBranchStudent]]⟩]⟩

/-- Fixture for claim C2: one student and no rooms, so the capacity gate
fails. -/
def gateFailSession : ExamSession :=
  ⟨[studentCSE 1], []⟩

/-- Fixture for claim C9: a zero-rows room next to a normal room, with a
roster the normal room can hold. -/
def zeroRowSession : ExamSession :=
  ⟨[studentCSE 1, studentCSE 2], [mkRoom "Z" 0 5, mkRoom "P" 2 2]⟩

/-- Fixture for claim C10: a 1x1 room whose only seat is already occupied. -/
def occupiedRoom : Room :=
  ⟨"101", 1, 1, [[some (studentECE 1)]]⟩

/-- The stream of cells the statistics loops scan: range(rows) x
range(columns) in row-major order. -/
def Room.cells (room : Room) : List (Option Student) :=
  (List.range room.rows.toNat).flatMap (fun r =>
    (List.range room.columns.toNat).map (fun c => room.cell r c))

/-- One step of the branch_distribution loop on one scanned cell. -/
def distStep (d : List (String × Nat)) (cell : Option Student) : List (String × Nat) :=
  match cell with
  | some student =>
    match student.branch_name with
    | some b => if b = "" then d else incrKey d b
    | none => d
  | none => d

/-- A scanned cell that branch_distribution counts: an occupant whose
branch label is truthy. -/
def truthyCell (cell : Option Student) : Bool :=
  match cell with
  | some student =>
    match student.branch_name with
    | some b => !(b == "")
    | none => false
  | none => false

/-- Fixture for claim C8: a populated 2x1 room with truthy branch labels. -/
def statsRoom : Room :=
  ⟨"101", 2, 1, [[some (studentECE 1)], [some (studentCSE 1)]]⟩

/-- Fixture for claim C8: the session holding statsRoom. -/
def statsSession : ExamSession :=
  ⟨[studentECE 1, studentCSE 1], [statsRoom]⟩

/-- Claim C7: branch derivation is total (hence never raises); on a
length-10 identifier it is exactly the static-table lookup of the
0-indexed 6..7 substring, defaulting to the empty label on a miss, and on
any other length it is the empty label. -/
theorem branch_derivation_characterization (ht : String) :
    getBranchFromHallticket ht =
      if ht.length = 10 then (lookupBranchCode (pySlice ht 6 8)).getD "" else "" := by
  unfold getBranchFromHallticket
  by_cases h : ht.length = 10
  · simp only [h, if_true]
    cases hv : lookupBranchCode (pySlice ht 6 8) <;> simp [hv]
  · simp [h]

/-- Claim C2: allocate_seats succeeds exactly when the summed rows*columns
capacity reaches the roster size, and on failure the session (in particular
every room grid) is returned exactly as it was. -/
theorem allocate_gate_exact (s : ExamSession) :
    ((allocate_seats s).1 = true ↔
      (s.students.length : Int) ≤ (s.rooms.map Room.capacity).sum) ∧
    ((allocate_seats s).1 = false → (allocate_seats s).2 = s) := by
  have hcap : s.get_total_capacity = (s.rooms.map Room.capacity).sum := rfl
  by_cases h : (s.students.length : Int) ≤ s.get_total_capacity
  · have hb : s.has_sufficient_capacity = true := decide_eq_true h
    have h1 : (allocate_seats s).1 = true := by
      unfold allocate_seats
      rw [hb]
      rfl
    refine ⟨⟨fun _ => hcap ▸ h, fun _ => h1⟩, fun hfalse => ?_⟩
    rw [h1] at hfalse
    exact absurd hfalse (by simp)
  · have hb : s.has_sufficient_capacity = false := decide_eq_false h
    have h1 : allocate_seats s = (false, s) := by
      unfold allocate_seats
      rw [hb]
      rfl
    rw [h1]
    refine ⟨⟨fun htrue => absurd htrue (by simp), fun hle => absurd (hcap ▸ hle) h⟩,
      fun _ => rfl⟩

/-- Witness for claim C2 at a concrete failing input: one student, no rooms. -/
theorem allocate_gate_exact_witness :
    (allocate_seats gateFailSession).2 = gateFailSession :=
  (allocate_gate_exact gateFailSession).2 (by decide)

/-- Helper: from the third group on, the index-directed loop of
_create_even_odd_lists agrees with the spec-worded recursion. -/
theorem distributeGroups_eq_appendRestSpec (rest : List (List Student)) :
    ∀ i, 2 ≤ i → ∀ A B, distributeGroups rest i A B = appendRestSpec rest A B := by
  induction rest with
  | nil => intro i hi A B; rfl
  | cons g tail ih =>
    intro i hi A B
    have h0 : ¬(i = 0) := by omega
    have h1 : ¬(i = 1) := by omega
    simp only [distributeGroups, appendRestSpec, h0, h1, if_false]
    by_cases hlen : A.length > B.length
    · simp only [hlen, if_true]
      exact ih (i + 1) (by omega) _ _
    · simp only [hlen, if_false]
      exact ih (i + 1) (by omega) _ _

/-- Helper: create_even_odd_lists is padEqual after the distribution loop. -/
theorem create_even_odd_lists_eq_padEqual (branch_groups : List (List Student)) :
    create_even_odd_lists branch_groups =
      padEqual (distributeGroups branch_groups 0 [] []) := rfl

/-- Helper: padEqual gives both queues the same length, namely the max. -/
theorem padEqual_length (p : List (Option Student) × List (Option Student)) :
    (padEqual p).1.length = max p.1.length p.2.length ∧
    (padEqual p).2.length = max p.1.length p.2.length := by
  constructor <;>
    · simp only [padEqual, List.length_append, List.length_replicate]
      omega

/-- Claim C5: queue construction behaves exactly as the spec words it — the
first group becomes queue A (the even list) entirely, the second becomes
queue B (the odd list) entirely, each later group is appended wholesale to B
exactly when len(A) > len(B) at that moment, and the shorter queue is padded
with empty placeholders until the lengths agree. -/
theorem create_even_odd_lists_matches_spec (branch_groups : List (List Student)) :
    create_even_odd_lists branch_groups = queuesSpec branch_groups ∧
    (create_even_odd_lists branch_groups).1.length =
      (create_even_odd_lists branch_groups).2.length := by
  have hmain : create_even_odd_lists branch_groups = queuesSpec branch_groups := by
    match branch_groups with
    | [] => rfl
    | [g0] => rfl
    | g0 :: g1 :: rest =>
      rw [create_even_odd_lists_eq_padEqual]
      show padEqual (distributeGroups rest 2 (g0.map some) (g1.map some)) = _
      rw [distributeGroups_eq_appendRestSpec rest 2 (by omega)]
      rfl
  refine ⟨hmain, ?_⟩
  rw [create_even_odd_lists_eq_padEqual]
  rw [(padEqual_length _).1, (padEqual_length _).2]

/-- Claim C1 counterexample: in dropSession the total capacity (3) equals
the roster size (3), allocate_seats reports success, yet only 2 seats are
filled — the lone ECE student is dropped because the even band of a
1-column room gets no cursor steps. -/
theorem allocate_drops_student_counterexample :
    dropSession.get_total_capacity = 3 ∧
    dropSession.students.length = 3 ∧
    (allocate_seats dropSession).1 = true ∧
    ((allocate_seats dropSession).2.rooms.map
      (fun room => room.occupants.length)).sum = 2 ∧
    (2 : Nat) ≠ 3 := by
  refine ⟨by decide, by decide, by decide, by decide, by decide⟩

/-- Claim C3 counterexample: in swapSession the first-seen branch group is
ECE, yet the odd-positioned column 1 (0-based column 0) receives the CSE
student, the head of the second-seen group — the code consumes odd_list
(second group) in odd columns, opposite to the claim. -/
theorem odd_band_head_counterexample :
    swapSession.get_students_by_branch.map Prod.fst = [some "ECE", some "CSE"] ∧
    (allocate_seats swapSession).1 = true ∧
    ((allocate_seats swapSession).2.rooms.getD 0 (mkRoom "" 0 0)).cell 0 0 =
      some (studentCSE 1) ∧
    (studentCSE 1).branch_name = some "CSE" ∧
    (studentCSE 1).branch_name ≠ some "ECE" := by
  refine ⟨by decide, by decide, by decide, by decide, by decide⟩

/-- Claim C4 failing input evaluated: with a single-branch roster of one
student and two 1x1 rooms, allocate_seats succeeds and seats the same
student in both rooms, because _allocate_sequential_seats restarts its
cursor k at 0 for every room instead of sharing one global cursor. -/
theorem sequential_cursor_resets_per_room :
    (allocate_seats twoRoomSingleBranchSession).1 = true ∧
    ((allocate_seats twoRoomSingleBranchSession).2.rooms.getD 0 (mkRoom "" 0 0)).cell 0 0 =
      some (studentCSE 1) ∧
    ((allocate_seats twoRoomSingleBranchSession).2.rooms.getD 1 (mkRoom "" 0 0)).cell 0 0 =
      some (studentCSE 1) ∧
    ((allocate_seats twoRoomSingleBranchSession).2.rooms.map
      (fun room => room.occupants.length)).sum = 2 := by
  refine ⟨by decide, by decide, by decide, by decide⟩

/-- Claim C6 failing input evaluated: 3 ECE then 3 CSE students in a 3x3
room gives 6 occupied and 3 empty seats, but the two ECE students at
(0,1) and (1,1) occupy vertically adjacent seats sharing an edge (each
band fills a whole column from one branch queue), contradicting the claimed
no-shared-edge property and the repository's own test assertion. -/
theorem two_branch_adjacent_same_branch :
    (allocate_seats twoBranchSession).1 = true ∧
    ((allocate_seats twoBranchSession).2.rooms.map
      (fun room => room.occupants.length)).sum = 6 ∧
    ((allocate_seats twoBranchSession).2.rooms.getD 0 (mkRoom "" 0 0)).get_empty_seats_count = 3 ∧
    ((allocate_seats twoBranchSession).2.rooms.getD 0 (mkRoom "" 0 0)).cell 0 1 =
      some (studentECE 1) ∧
    ((allocate_seats twoBranchSession).2.rooms.getD 0 (mkRoom "" 0 0)).cell 1 1 =
      some (studentECE 2) ∧
    (studentECE 1).branch_name = some "ECE" ∧
    (studentECE 2).branch_name = some "ECE" := by
  refine ⟨by decide, by decide, by decide, by decide, by decide, by decide, by decide⟩

/-- Claim C8 counterexample: a seated student whose branch label is the
empty string is counted in assigned_seats but skipped by every
branch_distribution, so the two sums differ (0 versus 1). -/
theorem statistics_branch_sum_counterexample :
    ((generate_statistics emptyBranchSession).rooms_stats.map
      (fun p => (p.2.branch_distribution.map Prod.snd).sum)).sum = 0 ∧
    ((generate_statistics emptyBranchSession).rooms_stats.map
      (fun p => p.2.assigned_seats)).sum = 1 ∧
    (emptyBranchSession.rooms.map (fun room => room.occupants.length)).sum = 1 ∧
    (0 : Int) ≠ 1 := by
  refine ⟨by decide, by decide, by decide, by decide⟩

/-- Claim C9 counterexample: a room with rows = -2 and columns = 3 has
capacity -6, so it contributes -6, not 0, to the session total capacity. -/
theorem negative_room_capacity_counterexample :
    (mkRoom "R" (-2) 3).rows < 0 ∧
    (mkRoom "R" (-2) 3).capacity = -6 ∧
    negativeDimSession.get_total_capacity = -6 ∧
    (-6 : Int) ≠ 0 := by
  refine ⟨by decide, by decide, by decide, by decide⟩

/-- Helper: a cell of a cleared room is always empty. -/
theorem clear_all_seats_cell (room : Room) (r c : Nat) :
    room.clear_all_seats.cell r c = none := by
  unfold Room.clear_all_seats Room.cell
  simp only [List.getD_eq_getElem?_getD, List.getElem?_replicate]
  by_cases h : r < room.rows.toNat
  · simp only [h, if_true, Option.getD_some]
    by_cases h2 : c < room.columns.toNat <;> simp [h2]
  · simp [h]

/-- Helper: clearing a room keeps its identifying fields. -/
theorem clear_all_seats_fields (room : Room) :
    room.clear_all_seats.room_no = room.room_no ∧
    room.clear_all_seats.rows = room.rows ∧
    room.clear_all_seats.columns = room.columns :=
  ⟨rfl, rfl, rfl⟩

/-- Helper: a cleared room is well formed. -/
theorem clear_all_seats_WF (room : Room) : room.clear_all_seats.WF := by
  constructor
  · simp [Room.clear_all_seats]
  · intro rw hrw
    rw [List.eq_of_mem_replicate hrw]
    exact List.length_replicate _ _

/-- Helper: set_seat keeps the identifying fields of the room. -/
theorem set_seat_fields (room : Room) (row column : Int) (st : Student) :
    (room.set_seat row column st).1.room_no = room.room_no ∧
    (room.set_seat row column st).1.rows = room.rows ∧
    (room.set_seat row column st).1.columns = room.columns := by
  unfold Room.set_seat
  split <;> exact ⟨rfl, rfl, rfl⟩

/-- Helper: getD after a point update, for any element type. -/
theorem getD_set {α : Type} (l : List α) (i j : Nat) (a d : α) :
    (l.set i a).getD j d = if i = j ∧ i < l.length then a else l.getD j d := by
  rw [List.getD_eq_getElem?_getD, List.getElem?_set]
  by_cases h : i = j
  · subst h
    by_cases h2 : i < l.length
    · simp [h2]
    · rw [if_pos rfl, if_neg h2, if_neg (by tauto), List.getD_eq_getElem?_getD l,
        List.getElem?_eq_none (by omega)]
  · simp [h, ← List.getD_eq_getElem?_getD]

/-- Helper: grid-level description of the double update performed by the
in-bounds branch of set_seat. -/
theorem grid_set_cell (grid : List (List (Option Student))) (rN cN : Nat)
    (v : Option Student) (r c : Nat) :
    ((grid.set rN ((grid.getD rN []).set cN v)).getD r []).getD c none =
      if r = rN ∧ c = cN ∧ rN < grid.length ∧ cN < (grid.getD rN []).length then v
      else (grid.getD r []).getD c none := by
  rw [getD_set]
  by_cases hr : rN = r
  · subst hr
    by_cases hlen : rN < grid.length
    · rw [if_pos ⟨rfl, hlen⟩, getD_set]
      by_cases hc : cN = c
      · subst hc
        by_cases hcl : cN < (grid.getD rN []).length
        · rw [if_pos ⟨rfl, hcl⟩, if_pos ⟨rfl, rfl, hlen, hcl⟩]
        · rw [if_neg (by tauto), if_neg (by tauto)]
      · rw [if_neg (by tauto), if_neg (by tauto)]
    · rw [if_neg (by tauto), if_neg (by tauto)]
  · rw [if_neg (by tauto), if_neg (by tauto)]

/-- Helper: set_seat succeeds in bounds and writes exactly the target cell. -/
theorem set_seat_cell_self (room : Room) (row column : Int) (st : Student)
    (hWF : room.WF) (h1 : 0 ≤ row) (h2 : row < room.rows)
    (h3 : 0 ≤ column) (h4 : column < room.columns) :
    (room.set_seat row column st).1.cell row.toNat column.toNat = some st ∧
    (room.set_seat row column st).2 = false := by
  obtain ⟨hlen, hrows⟩ := hWF
  have hcond : ¬(row < 0 ∨ row ≥ room.rows ∨ column < 0 ∨ column ≥ room.columns) := by
    omega
  have hrlt : row.toNat < room.seating_grid.length := by omega
  have hrowmem : room.seating_grid.getD row.toNat [] ∈ room.seating_grid := by
    rw [List.getD_eq_getElem _ _ hrlt]
    exact List.getElem_mem hrlt
  have hclt : column.toNat < (room.seating_grid.getD row.toNat []).length := by
    rw [hrows _ hrowmem]
    omega
  unfold Room.set_seat
  rw [if_neg hcond]
  refine ⟨?_, rfl⟩
  show ((room.seating_grid.set row.toNat _).getD row.toNat []).getD column.toNat none = _
  rw [grid_set_cell]
  simp only [hrlt, hclt, and_self, if_true]

/-- Helper: set_seat leaves every other cell unchanged, raised or not. -/
theorem set_seat_cell_other (room : Room) (row column : Int) (st : Student)
    (r c : Nat) (hne : ¬(r = row.toNat ∧ c = column.toNat)) :
    (room.set_seat row column st).1.cell r c = room.cell r c := by
  unfold Room.set_seat
  split
  · rfl
  · show ((room.seating_grid.set row.toNat _).getD r []).getD c none = _
    rw [grid_set_cell]
    split
    · rename_i hcase
      exact absurd ⟨hcase.1, hcase.2.1⟩ hne
    · rfl

/-- Helper: set_seat preserves grid well-formedness. -/
theorem set_seat_WF (room : Room) (row column : Int) (st : Student)
    (hWF : room.WF) : (room.set_seat row column st).1.WF := by
  obtain ⟨hlen, hrows⟩ := hWF
  unfold Room.set_seat
  split
  · exact ⟨hlen, hrows⟩
  · rename_i hcond
    constructor
    · simpa using hlen
    · intro rw hrw
      rcases List.mem_or_eq_of_mem_set hrw with h | h
      · exact hrows rw h
      · subst h
        rw [List.length_set]
        have hrlt : row.toNat < room.seating_grid.length := by omega
        have hmem : room.seating_grid.getD row.toNat [] ∈ room.seating_grid := by
          rw [List.getD_eq_getElem _ _ hrlt]
          exact List.getElem_mem hrlt
        exact hrows _ hmem

/-- Claim C10: for a well-formed room, an in-bounds set_seat always succeeds
(there is no occupancy check, so an occupied target is silently replaced),
writes exactly the target cell, and keeps room_no, rows, columns and every
other cell; an out-of-bounds set_seat raises (flag true) with the room
state, grid included, exactly as it was, because the bounds check precedes
the write. -/
theorem set_seat_frame_spec (room : Room) (row column : Int) (st : Student)
    (hWF : room.WF) :
    ((0 ≤ row ∧ row < room.rows ∧ 0 ≤ column ∧ column < room.columns) →
      (room.set_seat row column st).2 = false ∧
      (room.set_seat row column st).1.room_no = room.room_no ∧
      (room.set_seat row column st).1.rows = room.rows ∧
      (room.set_seat row column st).1.columns = room.columns ∧
      (room.set_seat row column st).1.cell row.toNat column.toNat = some st ∧
      (∀ r c : Nat, ¬(r = row.toNat ∧ c = column.toNat) →
        (room.set_seat row column st).1.cell r c = room.cell r c)) ∧
    (¬(0 ≤ row ∧ row < room.rows ∧ 0 ≤ column ∧ column < room.columns) →
      room.set_seat row column st = (room, true)) := by
  constructor
  · intro hin
    obtain ⟨h1, h2, h3, h4⟩ := hin
    obtain ⟨hself, hok⟩ := set_seat_cell_self room row column st hWF h1 h2 h3 h4
    obtain ⟨hn, hr, hc⟩ := set_seat_fields room row column st
    exact ⟨hok, hn, hr, hc, hself,
      fun r c hne => set_seat_cell_other room row column st r c hne⟩
  · intro hout
    unfold Room.set_seat
    rw [if_pos (by omega)]

/-- Helper: altVal on an empty old cell is the join of the list entry. -/
theorem altVal_none (lst : List (Option Student)) (i : Nat) :
    altVal lst i none = (lst[i]?).join := by
  unfold altVal
  cases h : lst[i]? with
  | none => rfl
  | some o => cases o <;> rfl

/-- Helper: full description of the inner row loop of the alternating walk:
with cursor k it advances the cursor by one per visited row and rewrites the
target column top to bottom from the queue, leaving all other cells alone. -/
theorem row_fold_spec (lst : List (Option Student)) (colT : Int) (rm : Room)
    (hWF : rm.WF) (hc0 : 0 ≤ colT) (hc1 : colT < rm.columns) :
    ∀ m : Nat, m ≤ rm.rows.toNat → ∀ k : Nat,
    (((List.range m).map (fun j : Nat => (j : Int) + 1)).foldl
        (seat_step lst colT) (rm, k)).2 = k + m ∧
    (((List.range m).map (fun j : Nat => (j : Int) + 1)).foldl
        (seat_step lst colT) (rm, k)).1.room_no = rm.room_no ∧
    (((List.range m).map (fun j : Nat => (j : Int) + 1)).foldl
        (seat_step lst colT) (rm, k)).1.rows = rm.rows ∧
    (((List.range m).map (fun j : Nat => (j : Int) + 1)).foldl
        (seat_step lst colT) (rm, k)).1.columns = rm.columns ∧
    (((List.range m).map (fun j : Nat => (j : Int) + 1)).foldl
        (seat_step lst colT) (rm, k)).1.WF ∧
    ∀ r c : Nat,
      (((List.range m).map (fun j : Nat => (j : Int) + 1)).foldl
          (seat_step lst colT) (rm, k)).1.cell r c =
        if c = colT.toNat ∧ r < m then altVal lst (k + r) (rm.cell r c)
        else rm.cell r c := by
  intro m
  induction m with
  | zero =>
    intro _ k
    refine ⟨rfl, rfl, rfl, rfl, hWF, fun r c => ?_⟩
    simp
  | succ m ih =>
    intro hm k
    obtain ⟨hsnd, hno, hrows2, hcols2, hWF2, hcells⟩ := ih (by omega) k
    have hsplit : (List.range (m + 1)).map (fun j : Nat => (j : Int) + 1)
        = (List.range m).map (fun j : Nat => (j : Int) + 1) ++ [(m : Int) + 1] := by
      rw [List.range_succ, List.map_append]
      rfl
    rw [hsplit, List.foldl_append]
    rcases hRdef : ((List.range m).map (fun j : Nat => (j : Int) + 1)).foldl
        (seat_step lst colT) (rm, k) with ⟨R1, R2⟩
    simp only [hRdef] at hsnd hno hrows2 hcols2 hWF2 hcells
    obtain rfl : R2 = k + m := hsnd
    simp only [List.foldl_cons, List.foldl_nil]
    have harg : (m : Int) + 1 - 1 = (m : Int) := by ring
    by_cases hlt : k + m < lst.length
    · cases hget : lst[k + m] with
      | none =>
        have hstep : seat_step lst colT (R1, k + m) ((m : Int) + 1) = (R1, k + m + 1) := by
          simp only [seat_step, dif_pos hlt, List.get_eq_getElem, hget]
        rw [hstep]
        refine ⟨rfl, hno, hrows2, hcols2, hWF2, fun r c => ?_⟩
        rw [hcells r c]
        have hentry : lst[k + m]? = some none := by
          rw [List.getElem?_eq_getElem hlt, hget]
        by_cases hcond : c = colT.toNat ∧ r < m + 1
        · rw [if_pos hcond]
          by_cases hrr : r < m
          · rw [if_pos ⟨hcond.1, hrr⟩]
          · have hrm : r = m := by omega
            subst hrm
            rw [if_neg (fun hh => hrr hh.2)]
            unfold altVal
            rw [hentry]
        · rw [if_neg hcond, if_neg (fun hh => hcond ⟨hh.1, by omega⟩)]
      | some student =>
        have hstep : seat_step lst colT (R1, k + m) ((m : Int) + 1)
            = ((R1.set_seat ((m : Int) + 1 - 1) colT student).1, k + m + 1) := by
          simp only [seat_step, dif_pos hlt, List.get_eq_getElem, hget]
        rw [hstep, harg]
        have hmrows : (m : Int) < R1.rows := by rw [hrows2]; omega
        have hmcols : colT < R1.columns := by rw [hcols2]; exact hc1
        obtain ⟨hself, _⟩ := set_seat_cell_self R1 (m : Int) colT student hWF2
          (by positivity) hmrows hc0 hmcols
        obtain ⟨hfn, hfr, hfc⟩ := set_seat_fields R1 (m : Int) colT student
        have hentry : lst[k + m]? = some (some student) := by
          rw [List.getElem?_eq_getElem hlt, hget]
        refine ⟨rfl, hfn.trans hno, hfr.trans hrows2, hfc.trans hcols2,
          set_seat_WF R1 (m : Int) colT student hWF2, fun r c => ?_⟩
        by_cases hcase : r = ((m : Int)).toNat ∧ c = colT.toNat
        · obtain ⟨hr1, hc1a⟩ := hcase
          subst hc1a
          rw [Int.toNat_natCast] at hr1
          subst hr1
          rw [Int.toNat_natCast] at hself
          rw [hself, if_pos ⟨rfl, by omega⟩]
          unfold altVal
          rw [hentry]
        · rw [set_seat_cell_other R1 (m : Int) colT student r c hcase, hcells r c]
          rw [Int.toNat_natCast] at hcase
          by_cases hcond : c = colT.toNat ∧ r < m + 1
          · rw [if_pos hcond]
            have hrr : r < m := by
              rcases Nat.lt_succ_iff_lt_or_eq.mp hcond.2 with h | h
              · exact h
              · exact absurd ⟨h, hcond.1⟩ hcase
            rw [if_pos ⟨hcond.1, hrr⟩]
          · rw [if_neg hcond, if_neg (fun hh => hcond ⟨hh.1, by omega⟩)]
    · have hstep : seat_step lst colT (R1, k + m) ((m : Int) + 1) = (R1, k + m + 1) := by
        simp only [seat_step, dif_neg hlt]
      rw [hstep]
      refine ⟨rfl, hno, hrows2, hcols2, hWF2, fun r c => ?_⟩
      rw [hcells r c]
      have hentry : lst[k + m]? = none := List.getElem?_eq_none (by omega)
      by_cases hcond : c = colT.toNat ∧ r < m + 1
      · rw [if_pos hcond]
        by_cases hrr : r < m
        · rw [if_pos ⟨hcond.1, hrr⟩]
        · have hrm : r = m := by omega
          subst hrm
          rw [if_neg (fun hh => hrr hh.2)]
          unfold altVal
          rw [hentry]
      · rw [if_neg hcond, if_neg (fun hh => hcond ⟨hh.1, by omega⟩)]

/-- Helper: pyRange1 written as a map over List.range with an explicit
binder type. -/
theorem pyRange1_eq (n : Int) :
    pyRange1 n = (List.range n.toNat).map (fun j : Nat => (j : Int) + 1) := rfl

/-- Helper: full description of one band of the alternating walk: the cursor
advances by rows per visited column, the visited target columns are written
column-major top to bottom from the queue, and all other cells are kept.
The target of the j-th visited column (j from 0) is colMap (j + 1). -/
theorem band_fold_spec (lst : List (Option Student)) (colMap : Int → Int)
    (rm : Room) (hWF : rm.WF) :
    ∀ n : Nat,
    (∀ j : Nat, j < n → 0 ≤ colMap ((j : Int) + 1) ∧ colMap ((j : Int) + 1) < rm.columns) →
    (∀ j j2 : Nat, j < n → j2 < n →
      (colMap ((j : Int) + 1)).toNat = (colMap ((j2 : Int) + 1)).toNat → j = j2) →
    ∀ k : Nat,
    (band_walk rm lst ((List.range n).map (fun j : Nat => (j : Int) + 1))
        colMap rm.rows k).2 = k + n * rm.rows.toNat ∧
    (band_walk rm lst ((List.range n).map (fun j : Nat => (j : Int) + 1))
        colMap rm.rows k).1.room_no = rm.room_no ∧
    (band_walk rm lst ((List.range n).map (fun j : Nat => (j : Int) + 1))
        colMap rm.rows k).1.rows = rm.rows ∧
    (band_walk rm lst ((List.range n).map (fun j : Nat => (j : Int) + 1))
        colMap rm.rows k).1.columns = rm.columns ∧
    (band_walk rm lst ((List.range n).map (fun j : Nat => (j : Int) + 1))
        colMap rm.rows k).1.WF ∧
    (∀ r c : Nat, (∀ j : Nat, j < n → c ≠ (colMap ((j : Int) + 1)).toNat) →
      (band_walk rm lst ((List.range n).map (fun j : Nat => (j : Int) + 1))
          colMap rm.rows k).1.cell r c = rm.cell r c) ∧
    (∀ j r : Nat, j < n →
      (band_walk rm lst ((List.range n).map (fun j : Nat => (j : Int) + 1))
          colMap rm.rows k).1.cell r ((colMap ((j : Int) + 1)).toNat) =
        if r < rm.rows.toNat then
          altVal lst (k + j * rm.rows.toNat + r)
            (rm.cell r ((colMap ((j : Int) + 1)).toNat))
        else rm.cell r ((colMap ((j : Int) + 1)).toNat)) := by
  intro n
  induction n with
  | zero =>
    intro _ _ k
    exact ⟨by simp [band_walk], rfl, rfl, rfl, hWF, fun r c _ => rfl,
      fun j r hj => absurd hj (by omega)⟩
  | succ n ihn =>
    intro hMono hInj k
    obtain ⟨hsnd, hno, hrows2, hcols2, hWF2, huntouched, htouched⟩ :=
      ihn (fun j hj => hMono j (by omega)) (fun j j2 hj hj2 => hInj j j2 (by omega) (by omega)) k
    have hsplit : (List.range (n + 1)).map (fun j : Nat => (j : Int) + 1)
        = (List.range n).map (fun j : Nat => (j : Int) + 1) ++ [(n : Int) + 1] := by
      rw [List.range_succ, List.map_append]
      rfl
    simp only [band_walk] at *
    rw [hsplit, List.foldl_append]
    rcases hRdef : ((List.range n).map (fun j : Nat => (j : Int) + 1)).foldl
        (fun acc col => row_walk acc.1 lst (colMap col) rm.rows acc.2) (rm, k) with ⟨R1, R2⟩
    simp only [hRdef] at hsnd hno hrows2 hcols2 hWF2 huntouched htouched
    obtain rfl : R2 = k + n * rm.rows.toNat := hsnd
    simp only [List.foldl_cons, List.foldl_nil]
    have hcolT0 : 0 ≤ colMap ((n : Int) + 1) := (hMono n (by omega)).1
    have hcolT1 : colMap ((n : Int) + 1) < R1.columns := by
      rw [hcols2]; exact (hMono n (by omega)).2
    have hrowlist : pyRange1 rm.rows
        = (List.range R1.rows.toNat).map (fun j : Nat => (j : Int) + 1) := by
      rw [pyRange1_eq, hrows2]
    obtain ⟨rsnd, rno, rrows, rcols, rWF, rcells⟩ :=
      row_fold_spec lst (colMap ((n : Int) + 1)) R1 hWF2 hcolT0 hcolT1
        R1.rows.toNat (by omega) (k + n * rm.rows.toNat)
    have hrw : ∀ z : Room × Nat, z = (R1, k + n * rm.rows.toNat) →
        row_walk z.1 lst (colMap ((n : Int) + 1)) rm.rows z.2
          = ((List.range R1.rows.toNat).map (fun j : Nat => (j : Int) + 1)).foldl
              (seat_step lst (colMap ((n : Int) + 1))) (R1, k + n * rm.rows.toNat) := by
      intro z hz
      subst hz
      rw [row_walk, hrowlist]
    rw [hrw _ rfl]
    have hRtoNat : R1.rows.toNat = rm.rows.toNat := by rw [hrows2]
    refine ⟨?_, ?_, ?_, ?_, ?_, ?_, ?_⟩
    · rw [rsnd, hRtoNat]
      ring
    · rw [rno, hno]
    · rw [rrows, hrows2]
    · rw [rcols, hcols2]
    · exact rWF
    · intro r c hc
      rw [rcells r c, if_neg (fun hh => hc n (by omega) hh.1)]
      exact huntouched r c (fun j hj => hc j (by omega))
    · intro j r hj
      rcases Nat.lt_succ_iff_lt_or_eq.mp hj with hjn | hjn
      · have hne : (colMap ((j : Int) + 1)).toNat ≠ (colMap ((n : Int) + 1)).toNat :=
          fun hh => absurd (hInj j n (by omega) (by omega) hh) (by omega)
        rw [rcells r _, if_neg (fun hh => hne hh.1)]
        exact htouched j r hjn
      · subst hjn
        have holdcell : R1.cell r ((colMap ((j : Int) + 1)).toNat)
            = rm.cell r ((colMap ((j : Int) + 1)).toNat) := by
          refine huntouched r _ (fun j2 hj2 hh => ?_)
          exact absurd (hInj j j2 (by omega) (by omega) hh) (by omega)
        rw [rcells r _, holdcell, hRtoNat]
        by_cases hr : r < rm.rows.toNat
        · rw [if_pos ⟨rfl, hr⟩, if_pos hr]
        · rw [if_neg (fun hh => hr hh.2), if_neg hr]

/-- Helper: two rooms with equal fields are equal. -/
theorem Room.eq_of_fields (a b : Room) (h1 : a.room_no = b.room_no)
    (h2 : a.rows = b.rows) (h3 : a.columns = b.columns)
    (h4 : a.seating_grid = b.seating_grid) : a = b := by
  cases a
  cases b
  simp_all

/-- Helper: the altRoom fields other than the grid are those of the room. -/
theorem altRoom_fields (room : Room) (ol el : List (Option Student)) (oi ei : Nat) :
    (altRoom room ol el oi ei).room_no = room.room_no ∧
    (altRoom room ol el oi ei).rows = room.rows ∧
    (altRoom room ol el oi ei).columns = room.columns :=
  ⟨rfl, rfl, rfl⟩

/-- Helper: altRoom has a well-formed grid. -/
theorem altRoom_WF (room : Room) (ol el : List (Option Student)) (oi ei : Nat) :
    (altRoom room ol el oi ei).WF := by
  constructor
  · simp [altRoom]
  · intro rw hrw
    simp only [altRoom, List.mem_map] at hrw
    obtain ⟨r, _, hrw⟩ := hrw
    rw [← hrw]
    simp [altRoom]

/-- Helper: in-range cells of altRoom are the altCell values. -/
theorem altRoom_cell (room : Room) (ol el : List (Option Student)) (oi ei : Nat)
    (r c : Nat) (hr : r < room.rows.toNat) (hc : c < room.columns.toNat) :
    (altRoom room ol el oi ei).cell r c = altCell ol el oi ei room.rows.toNat r c := by
  unfold altRoom Room.cell
  simp [List.getD_eq_getElem?_getD, List.getElem?_map, List.getElem?_range, hr, hc]

/-- Helper: a cell-level description determines the grid of a well-formed
room. -/
theorem room_grid_ext (a b : Room) (hrows : a.rows = b.rows)
    (hcols : a.columns = b.columns) (ha : a.WF) (hb : b.WF)
    (hcell : ∀ r c : Nat, r < a.rows.toNat → c < a.columns.toNat →
      a.cell r c = b.cell r c) :
    a.seating_grid = b.seating_grid := by
  apply List.ext_get
  · rw [ha.1, hb.1, hrows]
  · intro n h1 h2
    have hmem1 : a.seating_grid.get ⟨n, h1⟩ ∈ a.seating_grid := List.get_mem _ _ _
    have hmem2 : b.seating_grid.get ⟨n, h2⟩ ∈ b.seating_grid := List.get_mem _ _ _
    apply List.ext_get
    · rw [ha.2 _ hmem1, hb.2 _ hmem2, hcols]
    · intro m hm1 hm2
      have hn : n < a.rows.toNat := by rw [← ha.1]; exact h1
      have hmc : m < a.columns.toNat := by rw [← ha.2 _ hmem1]; exact hm1
      have hcc := hcell n m hn hmc
      unfold Room.cell at hcc
      rw [List.getD_eq_getElem _ _ h1, List.getD_eq_getElem _ _ h2] at hcc
      have hma : m < a.seating_grid[n].length := by
        simpa [List.get_eq_getElem] using hm1
      have hmb : m < b.seating_grid[n].length := by
        simpa [List.get_eq_getElem] using hm2
      rw [List.getD_eq_getElem _ _ hma, List.getD_eq_getElem _ _ hmb] at hcc
      simpa [List.get_eq_getElem] using hcc

/-- Helper: on a cleared room the alternating walk produces exactly the
altRoom closed form, advancing the two cursors by the band step counts. -/
theorem allocate_alternating_closed (room : Room) (hWF : room.WF)
    (hclear : ∀ r c : Nat, room.cell r c = none)
    (hr0 : 0 ≤ room.rows) (hc0 : 0 ≤ room.columns)
    (even_list odd_list : List (Option Student)) (oi ei : Nat) :
    allocate_alternating_seats room even_list odd_list oi ei
      = (altRoom room odd_list even_list oi ei,
         oi + oddStepsOf room, ei + evenStepsOf room) := by
  have hunfold : allocate_alternating_seats room even_list odd_list oi ei
      = ((band_walk (band_walk room odd_list (pyRange1 ((room.columns + 1) / 2))
            (fun odd_col => odd_col * 2 - 1 - 1) room.rows oi).1 even_list
            (pyRange1 (room.columns - (room.columns + 1) / 2))
            (fun even_col => even_col * 2 - 1) room.rows ei).1,
         (band_walk room odd_list (pyRange1 ((room.columns + 1) / 2))
            (fun odd_col => odd_col * 2 - 1 - 1) room.rows oi).2,
         (band_walk (band_walk room odd_list (pyRange1 ((room.columns + 1) / 2))
            (fun odd_col => odd_col * 2 - 1 - 1) room.rows oi).1 even_list
            (pyRange1 (room.columns - (room.columns + 1) / 2))
            (fun even_col => even_col * 2 - 1) room.rows ei).2) := rfl
  have hlist1 : pyRange1 ((room.columns + 1) / 2)
      = (List.range (oddColsN room)).map (fun j : Nat => (j : Int) + 1) := rfl
  obtain ⟨b1snd, b1no, b1rows, b1cols, b1WF, b1un, b1t⟩ :=
    band_fold_spec odd_list (fun odd_col => odd_col * 2 - 1 - 1) room hWF
      (oddColsN room)
      (fun j hj => by
        show 0 ≤ ((j : Int) + 1) * 2 - 1 - 1 ∧ ((j : Int) + 1) * 2 - 1 - 1 < room.columns
        have hexp : ((j : Int) + 1) * 2 - 1 - 1 = 2 * (j : Int) := by ring
        rw [hexp]
        unfold oddColsN at hj
        omega)
      (fun j j2 hj hj2 hh => by
        have hexp : ((j : Int) + 1) * 2 - 1 - 1 = 2 * (j : Int) := by ring
        have hexp2 : ((j2 : Int) + 1) * 2 - 1 - 1 = 2 * (j2 : Int) := by ring
        have hh2 : (((j : Int) + 1) * 2 - 1 - 1).toNat
            = (((j2 : Int) + 1) * 2 - 1 - 1).toNat := hh
        rw [hexp, hexp2] at hh2
        omega)
      oi
  rw [← hlist1] at b1snd b1no b1rows b1cols b1WF b1un b1t
  rcases hB1 : band_walk room odd_list (pyRange1 ((room.columns + 1) / 2))
      (fun odd_col => odd_col * 2 - 1 - 1) room.rows oi with ⟨B1, k1⟩
  rw [hB1] at hunfold
  simp only [hB1] at b1snd b1no b1rows b1cols b1WF b1un b1t
  obtain rfl : k1 = oi + oddColsN room * room.rows.toNat := b1snd
  have hlist2 : pyRange1 (room.columns - (room.columns + 1) / 2)
      = (List.range (evenColsN room)).map (fun j : Nat => (j : Int) + 1) := rfl
  obtain ⟨b2snd, b2no, b2rows, b2cols, b2WF, b2un, b2t⟩ :=
    band_fold_spec even_list (fun even_col => even_col * 2 - 1) B1 b1WF
      (evenColsN room)
      (fun j hj => by
        show 0 ≤ ((j : Int) + 1) * 2 - 1 ∧ ((j : Int) + 1) * 2 - 1 < B1.columns
        have hexp : ((j : Int) + 1) * 2 - 1 = 2 * (j : Int) + 1 := by ring
        rw [hexp, b1cols]
        unfold evenColsN at hj
        omega)
      (fun j j2 hj hj2 hh => by
        have hexp : ((j : Int) + 1) * 2 - 1 = 2 * (j : Int) + 1 := by ring
        have hexp2 : ((j2 : Int) + 1) * 2 - 1 = 2 * (j2 : Int) + 1 := by ring
        have hh2 : (((j : Int) + 1) * 2 - 1).toNat
            = (((j2 : Int) + 1) * 2 - 1).toNat := hh
        rw [hexp, hexp2] at hh2
        omega)
      ei
  rw [← hlist2] at b2snd b2no b2rows b2cols b2WF b2un b2t
  rw [← b1rows] at hunfold
  rcases hB2 : band_walk B1 even_list (pyRange1 (room.columns - (room.columns + 1) / 2))
      (fun even_col => even_col * 2 - 1) B1.rows ei with ⟨B2, k2⟩
  rw [hB2] at hunfold
  simp only [hB2] at b2snd b2no b2rows b2cols b2WF b2un b2t
  obtain rfl : k2 = ei + evenColsN room * B1.rows.toNat := b2snd
  rw [hunfold]
  have hB1toNat : B1.rows.toNat = room.rows.toNat := by rw [b1rows]
  refine Prod.ext ?_ (Prod.ext ?_ ?_)
  · show B2 = altRoom room odd_list even_list oi ei
    refine Room.eq_of_fields _ _ (by rw [b2no, b1no]; rfl)
      (by rw [b2rows, b1rows]; rfl) (by rw [b2cols, b1cols]; rfl) ?_
    refine room_grid_ext _ _ (by rw [b2rows, b1rows]; rfl)
      (by rw [b2cols, b1cols]; rfl) b2WF (altRoom_WF room odd_list even_list oi ei) ?_
    intro r c hr hc
    have hrN : r < room.rows.toNat := by
      rw [← hB1toNat, ← b2rows]; exact hr
    have hcN : c < room.columns.toNat := by
      rw [← b1cols, ← b2cols]; exact hc
    rw [altRoom_cell room odd_list even_list oi ei r c hrN hcN]
    unfold altCell
    by_cases hpar : c % 2 = 0
    · rw [if_pos hpar]
      have hcx : c = 2 * (c / 2) := by omega
      have hj : c / 2 < oddColsN room := by
        unfold oddColsN
        unfold oddColsN at *
        omega
      have huntouched2 : B2.cell r c = B1.cell r c := by
        refine b2un r c (fun j2 hj2 hh => ?_)
        have hexp : ((j2 : Int) + 1) * 2 - 1 = 2 * (j2 : Int) + 1 := by ring
        rw [hexp] at hh
        omega
      have htarget : (((((c / 2) : Nat) : Int) + 1) * 2 - 1 - 1).toNat = c := by
        have hexp : ((((c / 2) : Nat) : Int) + 1) * 2 - 1 - 1 = 2 * (((c / 2) : Nat) : Int) := by
          ring
        rw [hexp]
        omega
      have hb1 := b1t (c / 2) r hj
      rw [htarget] at hb1
      rw [huntouched2, hb1, if_pos hrN, hclear r c, altVal_none]
    · rw [if_neg hpar]
      have hj : c / 2 < evenColsN room := by
        unfold evenColsN at *
        omega
      have huntouched1 : B1.cell r c = room.cell r c := by
        refine b1un r c (fun j2 hj2 hh => ?_)
        have hexp : ((j2 : Int) + 1) * 2 - 1 - 1 = 2 * (j2 : Int) := by ring
        rw [hexp] at hh
        omega
      have htarget : (((((c / 2) : Nat) : Int) + 1) * 2 - 1).toNat = c := by
        have hexp : ((((c / 2) : Nat) : Int) + 1) * 2 - 1 = 2 * (((c / 2) : Nat) : Int) + 1 := by
          ring
        rw [hexp]
        omega
      have hb2 := b2t (c / 2) r hj
      rw [htarget] at hb2
      rw [hb2, if_pos (by rw [hB1toNat]; exact hrN), huntouched1, hclear r c, altVal_none,
        hB1toNat]
  · show oi + oddColsN room * B1.rows.toNat = oi + oddStepsOf room
    rw [hB1toNat]
    rfl
  · show ei + evenColsN room * B1.rows.toNat = ei + evenStepsOf room
    rw [hB1toNat]
    rfl

/-- Helper: clearing a room changes neither its altRoom closed form nor its
band step counts, since those depend only on the dimensions. -/
theorem altRoom_clear (room : Room) (ol el : List (Option Student)) (oi ei : Nat) :
    altRoom room.clear_all_seats ol el oi ei = altRoom room ol el oi ei ∧
    oddStepsOf room.clear_all_seats = oddStepsOf room ∧
    evenStepsOf room.clear_all_seats = evenStepsOf room :=
  ⟨rfl, rfl, rfl⟩

/-- Helper: with more than one branch group and a nonempty queue pair, the
per-room loop turns the room list into the altRooms closed form, threading
the two cursors across rooms without resetting them. -/
theorem rooms_fold_spec (branch_groups : List (Option String × List Student))
    (hbg : 1 < branch_groups.length)
    (even_list odd_list : List (Option Student))
    (hne : (even_list.isEmpty && odd_list.isEmpty) = false) :
    ∀ rooms : List Room, (∀ room ∈ rooms, 0 ≤ room.rows ∧ 0 ≤ room.columns) →
    ∀ (done0 : List Room) (oi ei : Nat),
    rooms.foldl (allocate_room_step branch_groups even_list odd_list) (done0, oi, ei)
      = (done0 ++ altRooms odd_list even_list oi ei rooms,
         oi + (rooms.map oddStepsOf).sum, ei + (rooms.map evenStepsOf).sum) := by
  intro rooms
  induction rooms with
  | nil =>
    intro _ done0 oi ei
    simp [altRooms]
  | cons room rest ih =>
    intro hdims done0 oi ei
    have hdim0 := hdims room (by simp)
    have hstep : allocate_room_step branch_groups even_list odd_list (done0, oi, ei) room
        = (done0 ++ [altRoom room odd_list even_list oi ei],
           oi + oddStepsOf room, ei + evenStepsOf room) := by
      unfold allocate_room_step
      rw [hne]
      simp only [Bool.false_eq_true, if_false, if_pos hbg]
      rw [allocate_alternating_closed room.clear_all_seats (clear_all_seats_WF room)
        (clear_all_seats_cell room) hdim0.1 hdim0.2 even_list odd_list oi ei]
      rfl
    rw [List.foldl_cons, hstep,
      ih (fun r hr => hdims r (by simp [hr])) _ _ _]
    simp [altRooms, List.append_assoc, Nat.add_assoc]

/-- Helper: every group produced by get_students_by_branch is nonempty. -/
theorem groups_nonempty (s : ExamSession) :
    ∀ p ∈ s.get_students_by_branch, p.2 ≠ [] := by
  have hstep : ∀ (acc : List (Option String × List Student)) (st : Student),
      (∀ p ∈ acc, p.2 ≠ []) → ∀ p ∈ addToGroups acc st, p.2 ≠ [] := by
    intro acc
    induction acc with
    | nil =>
      intro st _ p hp
      simp only [addToGroups, List.mem_singleton] at hp
      subst hp
      simp
    | cons q rest ihq =>
      intro st hacc p hp
      rcases q with ⟨b, l⟩
      simp only [addToGroups] at hp
      by_cases hb : b = st.branch_name
      · rw [if_pos hb] at hp
        rcases List.mem_cons.mp hp with h | h
        · subst h
          simp
        · exact hacc p (List.mem_cons_of_mem _ h)
      · rw [if_neg hb] at hp
        rcases List.mem_cons.mp hp with h | h
        · subst h
          exact hacc (b, l) (by simp)
        · exact ihq st (fun q2 hq2 => hacc q2 (List.mem_cons_of_mem _ hq2)) p h
  have hmain : ∀ (l : List Student) (acc : List (Option String × List Student)),
      (∀ p ∈ acc, p.2 ≠ []) → ∀ p ∈ l.foldl addToGroups acc, p.2 ≠ [] := by
    intro l
    induction l with
    | nil => intro acc hacc; exact hacc
    | cons st rest ihl =>
      intro acc hacc
      exact ihl (addToGroups acc st) (hstep acc st hacc)
  exact hmain s.students [] (by simp)

/-- Helper: the distribution loop never shrinks either queue. -/
theorem appendRestSpec_le (rest : List (List Student)) :
    ∀ A B : List (Option Student),
    A.length ≤ (appendRestSpec rest A B).1.length ∧
    B.length ≤ (appendRestSpec rest A B).2.length := by
  induction rest with
  | nil => intro A B; exact ⟨le_refl _, le_refl _⟩
  | cons g tail ih =>
    intro A B
    unfold appendRestSpec
    by_cases hlen : A.length > B.length
    · rw [if_pos hlen]
      obtain ⟨h1, h2⟩ := ih A (B ++ g.map some)
      refine ⟨h1, le_trans ?_ h2⟩
      simp
    · rw [if_neg hlen]
      obtain ⟨h1, h2⟩ := ih (A ++ g.map some) B
      refine ⟨le_trans ?_ h1, h2⟩
      simp

/-- Helper: with at least two branch groups neither queue is empty. -/
theorem queues_nonempty (s : ExamSession)
    (hbg : 1 < s.get_students_by_branch.length) :
    ((create_even_odd_lists (s.get_students_by_branch.map Prod.snd)).1.isEmpty &&
     (create_even_odd_lists (s.get_students_by_branch.map Prod.snd)).2.isEmpty) = false := by
  rcases hgs : s.get_students_by_branch with _ | ⟨p0, rest0⟩
  · rw [hgs] at hbg; simp at hbg
  rcases rest0 with _ | ⟨p1, rest⟩
  · rw [hgs] at hbg; simp at hbg
  have hp0 : p0.2 ≠ [] := groups_nonempty s p0 (by rw [hgs]; simp)
  rw [create_even_odd_lists_eq_padEqual]
  have hdist : distributeGroups (List.map Prod.snd (p0 :: p1 :: rest)) 0 [] []
      = appendRestSpec (rest.map Prod.snd) (p0.2.map some) (p1.2.map some) := by
    show distributeGroups (rest.map Prod.snd) 2 (p0.2.map some) (p1.2.map some) = _
    exact distributeGroups_eq_appendRestSpec _ 2 (by omega) _ _
  rw [hdist]
  obtain ⟨h1, _⟩ := appendRestSpec_le (rest.map Prod.snd) (p0.2.map some) (p1.2.map some)
  have hlen1 : 1 ≤ (appendRestSpec (rest.map Prod.snd) (p0.2.map some) (p1.2.map some)).1.length := by
    have : 1 ≤ p0.2.length := by
      cases hm : p0.2 with
      | nil => exact absurd hm hp0
      | cons a l => simp
    simpa using le_trans this (by simpa using h1)
  have hpadlen := padEqual_length (appendRestSpec (rest.map Prod.snd) (p0.2.map some) (p1.2.map some))
  have hposlen : 0 < (padEqual (appendRestSpec (rest.map Prod.snd) (p0.2.map some) (p1.2.map some))).1.length := by
    rw [hpadlen.1]
    omega
  have : (padEqual (appendRestSpec (rest.map Prod.snd) (p0.2.map some) (p1.2.map some))).1.isEmpty = false := by
    cases hf : (padEqual (appendRestSpec (rest.map Prod.snd) (p0.2.map some) (p1.2.map some))).1 with
    | nil => rw [hf] at hposlen; simp at hposlen
    | cons a l => rfl
  rw [this]
  rfl

/-- Helper: under the gate, with at least two branch groups, allocate_seats
succeeds and replaces the rooms with the altRooms closed form, both cursors
starting at 0. -/
theorem allocate_seats_multi (s : ExamSession)
    (hcap : (s.students.length : Int) ≤ s.get_total_capacity)
    (hbg : 1 < s.get_students_by_branch.length)
    (hdims : ∀ room ∈ s.rooms, 0 ≤ room.rows ∧ 0 ≤ room.columns) :
    allocate_seats s = (true, { s with rooms := (altRooms
      (create_even_odd_lists (s.get_students_by_branch.map Prod.snd)).2
      (create_even_odd_lists (s.get_students_by_branch.map Prod.snd)).1
      0 0 s.rooms) }) := by
  have hb : s.has_sufficient_capacity = true := decide_eq_true hcap
  have hne := queues_nonempty s hbg
  unfold allocate_seats
  rw [hb]
  simp only [Bool.not_true, Bool.false_eq_true, if_false]
  rw [rooms_fold_spec s.get_students_by_branch hbg _ _ hne s.rooms hdims [] 0 0]
  rw [List.nil_append]

/-- Helper: altRooms preserves the number of rooms. -/
theorem altRooms_length (ol el : List (Option Student)) :
    ∀ (rooms : List Room) (oi ei : Nat),
    (altRooms ol el oi ei rooms).length = rooms.length := by
  intro rooms
  induction rooms with
  | nil => intro oi ei; rfl
  | cons room rest ih =>
    intro oi ei
    show (altRoom room ol el oi ei :: altRooms ol el _ _ rest).length = rest.length + 1
    rw [List.length_cons, ih]

/-- Helper: the k-th altRooms entry is the altRoom of the k-th room with the
cursors advanced by the band steps of all earlier rooms. -/
theorem altRooms_getD (ol el : List (Option Student)) :
    ∀ (rooms : List Room) (k : Nat) (hk : k < rooms.length) (oi ei : Nat),
    (altRooms ol el oi ei rooms).getD k (mkRoom "" 0 0)
      = altRoom (rooms.get ⟨k, hk⟩) ol el (oi + oddStart rooms k) (ei + evenStart rooms k) := by
  intro rooms
  induction rooms with
  | nil => intro k hk; simp at hk
  | cons room rest ih =>
    intro k hk oi ei
    cases k with
    | zero =>
      show (altRoom room ol el oi ei :: altRooms ol el _ _ rest).getD 0 _ = _
      simp [oddStart, evenStart]
    | succ k2 =>
      show (altRoom room ol el oi ei :: altRooms ol el _ _ rest).getD (k2 + 1) _ = _
      rw [List.getD_cons_succ]
      rw [ih k2 (by simpa using hk) (oi + oddStepsOf room) (ei + evenStepsOf room)]
      have hodds : oddStart (room :: rest) (k2 + 1)
          = oddStepsOf room + oddStart rest k2 := by
        unfold oddStart
        rw [List.take_succ_cons, List.map_cons, List.sum_cons]
      have hevens : evenStart (room :: rest) (k2 + 1)
          = evenStepsOf room + evenStart rest k2 := by
        unfold evenStart
        rw [List.take_succ_cons, List.map_cons, List.sum_cons]
      rw [hodds, hevens, ← Nat.add_assoc, ← Nat.add_assoc]
      rfl

/-- Claim C3 (amended): in every successful multi-branch allocation over
rooms with nonnegative dimensions, the resulting grids follow the altCell
closed form: 1-based odd column positions (0-based even columns) are filled
column-major, top to bottom, consuming sequentially from odd_list — the
queue whose head is the second-seen branch group — and 1-based even
positions from even_list, the first-seen group queue (the claim had the two
queues swapped); each room reads the queues starting at the accumulated
band step counts of all earlier rooms, so the two cursors are shared across
the rooms of one allocate_seats call and are not reset per room. -/
theorem allocate_multi_branch_closed_form (s : ExamSession)
    (hdims : ∀ room ∈ s.rooms, 0 ≤ room.rows ∧ 0 ≤ room.columns)
    (hbg : 1 < s.get_students_by_branch.length)
    (hcap : (s.students.length : Int) ≤ s.get_total_capacity) :
    (allocate_seats s).1 = true ∧
    (allocate_seats s).2.rooms.length = s.rooms.length ∧
    ∀ k : Nat, ∀ hk : k < s.rooms.length, ∀ r c : Nat,
      r < (s.rooms.get ⟨k, hk⟩).rows.toNat →
      c < (s.rooms.get ⟨k, hk⟩).columns.toNat →
      ((allocate_seats s).2.rooms.getD k (mkRoom "" 0 0)).cell r c
        = altCell (create_even_odd_lists (s.get_students_by_branch.map Prod.snd)).2
            (create_even_odd_lists (s.get_students_by_branch.map Prod.snd)).1
            (oddStart s.rooms k) (evenStart s.rooms k)
            (s.rooms.get ⟨k, hk⟩).rows.toNat r c := by
  rw [allocate_seats_multi s hcap hbg hdims]
  refine ⟨rfl, altRooms_length _ _ _ _ _, ?_⟩
  intro k hk r c hr hc
  show ((altRooms (create_even_odd_lists (s.get_students_by_branch.map Prod.snd)).2
      (create_even_odd_lists (s.get_students_by_branch.map Prod.snd)).1
      0 0 s.rooms).getD k (mkRoom "" 0 0)).cell r c = _
  rw [altRooms_getD _ _ s.rooms k hk 0 0]
  rw [altRoom_cell _ _ _ _ _ r c hr hc]
  rw [Nat.zero_add, Nat.zero_add]

/-- Witness for claim C3: the closed form applied to the 3 ECE + 3 CSE, one
3x3 room session. -/
theorem allocate_multi_branch_closed_form_witness :
    ((∀ room ∈ twoBranchSession.rooms, 0 ≤ room.rows ∧ 0 ≤ room.columns) ∧
     1 < twoBranchSession.get_students_by_branch.length ∧
     (twoBranchSession.students.length : Int) ≤ twoBranchSession.get_total_capacity) ∧
    ((allocate_seats twoBranchSession).1 = true ∧
     (allocate_seats twoBranchSession).2.rooms.length = twoBranchSession.rooms.length ∧
     ∀ k : Nat, ∀ hk : k < twoBranchSession.rooms.length, ∀ r c : Nat,
       r < (twoBranchSession.rooms.get ⟨k, hk⟩).rows.toNat →
       c < (twoBranchSession.rooms.get ⟨k, hk⟩).columns.toNat →
       ((allocate_seats twoBranchSession).2.rooms.getD k (mkRoom "" 0 0)).cell r c
         = altCell
             (create_even_odd_lists (twoBranchSession.get_students_by_branch.map Prod.snd)).2
             (create_even_odd_lists (twoBranchSession.get_students_by_branch.map Prod.snd)).1
             (oddStart twoBranchSession.rooms k) (evenStart twoBranchSession.rooms k)
             (twoBranchSession.rooms.get ⟨k, hk⟩).rows.toNat r c) :=
  ⟨⟨by decide, by decide, by decide⟩,
   allocate_multi_branch_closed_form twoBranchSession (by decide) (by decide) (by decide)⟩

/-- Helper: the multiset of students of one grid row as an indexed sum. -/
theorem row_occMS (rw : List (Option Student)) :
    ((rw.filterMap id : List Student) : Multiset Student)
      = ∑ c ∈ Finset.range rw.length, optMS (rw.getD c none) := by
  induction rw with
  | nil => simp
  | cons a l ih =>
    rw [List.length_cons, Finset.sum_range_succ']
    have h0 : (a :: l).getD 0 none = a := rfl
    have hsucc : ∀ c : Nat, (a :: l).getD (c + 1) none = l.getD c none := fun c => rfl
    simp only [h0, hsucc]
    cases a with
    | none =>
      show ((l.filterMap id : List Student) : Multiset Student) = _
      rw [ih]
      simp [optMS]
    | some st =>
      show ((st :: l.filterMap id : List Student) : Multiset Student) = _
      rw [← Multiset.cons_coe, ih]
      have hst : optMS (some st) = ({st} : Multiset Student) := rfl
      rw [hst, add_comm, Multiset.singleton_add]

/-- Helper: the multiset of students of a whole grid as a sum over rows. -/
theorem grid_occMS (grid : List (List (Option Student))) :
    (((grid.map (fun rw => rw.filterMap id)).flatten : List Student) : Multiset Student)
      = ∑ r ∈ Finset.range grid.length,
          ((((grid.getD r []).filterMap id) : List Student) : Multiset Student) := by
  induction grid with
  | nil => simp
  | cons rw rest ih =>
    rw [List.length_cons, Finset.sum_range_succ']
    have h0 : (rw :: rest).getD 0 [] = rw := rfl
    have hsucc : ∀ r : Nat, (rw :: rest).getD (r + 1) [] = rest.getD r [] := fun r => rfl
    simp only [h0, hsucc]
    show (((rw.filterMap id ++ (rest.map (fun rw2 => rw2.filterMap id)).flatten
        : List Student)) : Multiset Student) = _
    rw [← Multiset.coe_add, ih]
    exact add_comm _ _

/-- Helper: splitting a sum over an index range into two chunks. -/
theorem sum_range_add_split (G : Nat → Multiset Student) (a b : Nat) :
    ∑ i ∈ Finset.range (a + b), G i
      = ∑ i ∈ Finset.range a, G i + ∑ i ∈ Finset.range b, G (a + i) := by
  induction b with
  | zero => simp
  | succ b ihb =>
    rw [show a + (b + 1) = (a + b) + 1 from rfl, Finset.sum_range_succ, ihb,
      Finset.sum_range_succ, add_assoc]

/-- Helper: a sum over a K*R range as a double sum over blocks. -/
theorem sum_block (G : Nat → Multiset Student) (K R : Nat) :
    ∑ i ∈ Finset.range (K * R), G i
      = ∑ j ∈ Finset.range K, ∑ r ∈ Finset.range R, G (j * R + r) := by
  induction K with
  | zero => simp
  | succ K ihK =>
    rw [Nat.succ_mul, sum_range_add_split, ihK, Finset.sum_range_succ]

/-- Helper: splitting a sum over column indices by parity. -/
theorem sum_parity (F : Nat → Multiset Student) (C : Nat) :
    ∑ c ∈ Finset.range C, F c
      = ∑ j ∈ Finset.range ((C + 1) / 2), F (2 * j)
        + ∑ j ∈ Finset.range (C / 2), F (2 * j + 1) := by
  rw [← Finset.sum_filter_add_sum_filter_not (Finset.range C) (fun c => c % 2 = 0) F]
  congr 1
  · have himg : Finset.filter (fun c => c % 2 = 0) (Finset.range C)
        = Finset.image (fun j => 2 * j) (Finset.range ((C + 1) / 2)) := by
      ext c
      simp only [Finset.mem_filter, Finset.mem_range, Finset.mem_image]
      constructor
      · intro h
        exact ⟨c / 2, by omega, by omega⟩
      · rintro ⟨j, hj, rfl⟩
        omega
    rw [himg, Finset.sum_image (fun x _ y _ h => by omega)]
  · have himg : Finset.filter (fun c => ¬c % 2 = 0) (Finset.range C)
        = Finset.image (fun j => 2 * j + 1) (Finset.range (C / 2)) := by
      ext c
      simp only [Finset.mem_filter, Finset.mem_range, Finset.mem_image]
      constructor
      · intro h
        exact ⟨c / 2, by omega, by omega⟩
      · rintro ⟨j, hj, rfl⟩
        omega
    rw [himg, Finset.sum_image (fun x _ y _ h => by omega)]

/-- Helper: summing the joined entries of a padded queue over a range that
covers all real students yields exactly those students. -/
theorem slice_sum (reals : List Student) (pad : Nat) :
    ∀ S : Nat, reals.length ≤ S →
    ∑ i ∈ Finset.range S,
        optMS (((reals.map some ++ List.replicate pad none)[i]?).join)
      = (reals : Multiset Student) := by
  induction reals with
  | nil =>
    intro S hS
    have hz : ∀ i ∈ Finset.range S,
        optMS (((([] : List Student).map some ++ List.replicate pad none)[i]?).join) = 0 := by
      intro i _
      simp only [List.map_nil, List.nil_append, List.getElem?_replicate]
      by_cases h : i < pad
      · simp [h, optMS]
      · simp [h, optMS]
    rw [Finset.sum_congr rfl hz]
    simp
  | cons st rest ihr =>
    intro S hS
    obtain ⟨S2, rfl⟩ : ∃ S2, S = S2 + 1 := ⟨S - 1, by simp at hS; omega⟩
    rw [Finset.sum_range_succ']
    have h0 : (((st :: rest).map some ++ List.replicate pad none)[0]?).join = some st := by
      simp
    have hsucc : ∀ i : Nat, ((st :: rest).map some ++ List.replicate pad none)[i + 1]?
        = (rest.map some ++ List.replicate pad none)[i]? := by
      intro i
      simp
    simp only [h0, hsucc]
    rw [ihr S2 (by simp at hS; omega)]
    have hst : optMS (some st) = ({st} : Multiset Student) := rfl
    rw [hst, add_comm, Multiset.singleton_add, Multiset.cons_coe]

/-- Helper: the odd band column count in Nat form. -/
theorem oddColsN_eq (room : Room) : oddColsN room = (room.columns.toNat + 1) / 2 := by
  unfold oddColsN
  omega

/-- Helper: the even band column count in Nat form. -/
theorem evenColsN_eq (room : Room) : evenColsN room = room.columns.toNat / 2 := by
  unfold evenColsN
  omega

/-- Helper: the student multiset of a row built by mapping over indices. -/
theorem mapped_row_MS (C : Nat) (f : Nat → Option Student) :
    ((((List.range C).map f).filterMap id : List Student) : Multiset Student)
      = ∑ c ∈ Finset.range C, optMS (f c) := by
  rw [row_occMS, List.length_map, List.length_range]
  refine Finset.sum_congr rfl (fun c hc => ?_)
  have hg : ((List.range C).map f).getD c none = f c := by
    rw [List.getD_eq_getElem?_getD, List.getElem?_map, List.getElem?_range
      (Finset.mem_range.mp hc)]
    rfl
  rw [hg]

/-- Helper: the occupant multiset of an altRoom splits into one contiguous
slice of each queue, of the length of the corresponding band. -/
theorem altRoom_occ_slices (room : Room) (ol el : List (Option Student)) (oi ei : Nat) :
    (((altRoom room ol el oi ei).occupants : List Student) : Multiset Student)
      = ∑ i ∈ Finset.range (oddStepsOf room), optMS ((ol[oi + i]?).join)
        + ∑ i ∈ Finset.range (evenStepsOf room), optMS ((el[ei + i]?).join) := by
  show (((altRoom room ol el oi ei).seating_grid.map (fun rw => rw.filterMap id)).flatten
      : Multiset Student) = _
  rw [grid_occMS]
  have hlen : (altRoom room ol el oi ei).seating_grid.length = room.rows.toNat := by
    simp [altRoom]
  rw [hlen]
  have hsummand : ∀ r ∈ Finset.range room.rows.toNat,
      ((((altRoom room ol el oi ei).seating_grid.getD r []).filterMap id : List Student)
          : Multiset Student)
        = ∑ c ∈ Finset.range room.columns.toNat,
            optMS (altCell ol el oi ei room.rows.toNat r c) := by
    intro r hr
    have hrow : (altRoom room ol el oi ei).seating_grid.getD r []
        = (List.range room.columns.toNat).map
            (fun c => altCell ol el oi ei room.rows.toNat r c) := by
      show ((List.range room.rows.toNat).map (fun r2 =>
          (List.range room.columns.toNat).map
            (fun c => altCell ol el oi ei room.rows.toNat r2 c))).getD r [] = _
      rw [List.getD_eq_getElem?_getD, List.getElem?_map, List.getElem?_range
        (Finset.mem_range.mp hr)]
      rfl
    rw [hrow, mapped_row_MS]
  rw [Finset.sum_congr rfl hsummand, Finset.sum_comm,
    sum_parity (fun c => ∑ r ∈ Finset.range room.rows.toNat,
      optMS (altCell ol el oi ei room.rows.toNat r c)) room.columns.toNat]
  have hostep : oddStepsOf room = (room.columns.toNat + 1) / 2 * room.rows.toNat := by
    unfold oddStepsOf
    rw [oddColsN_eq]
  have hestep : evenStepsOf room = room.columns.toNat / 2 * room.rows.toNat := by
    unfold evenStepsOf
    rw [evenColsN_eq]
  congr 1
  · rw [hostep, sum_block (fun i => optMS ((ol[oi + i]?).join))
      ((room.columns.toNat + 1) / 2) room.rows.toNat]
    refine Finset.sum_congr rfl (fun j hj => ?_)
    refine Finset.sum_congr rfl (fun r hr => ?_)
    unfold altCell
    rw [if_pos (by omega)]
    have h2j : 2 * j / 2 = j := by omega
    rw [h2j, Nat.add_assoc]
  · rw [hestep, sum_block (fun i => optMS ((el[ei + i]?).join))
      (room.columns.toNat / 2) room.rows.toNat]
    refine Finset.sum_congr rfl (fun j hj => ?_)
    refine Finset.sum_congr rfl (fun r hr => ?_)
    unfold altCell
    rw [if_neg (by omega)]
    have h2j : (2 * j + 1) / 2 = j := by omega
    rw [h2j, Nat.add_assoc]

/-- Helper: the total occupant multiset of the altRooms list is one
contiguous slice of each queue, covering all band steps of all rooms. -/
theorem altRooms_occMS (ol el : List (Option Student)) :
    ∀ (rooms : List Room) (oi ei : Nat),
    ((altRooms ol el oi ei rooms).map
        (fun room => ((room.occupants : List Student) : Multiset Student))).sum
      = ∑ i ∈ Finset.range ((rooms.map oddStepsOf).sum), optMS ((ol[oi + i]?).join)
        + ∑ i ∈ Finset.range ((rooms.map evenStepsOf).sum), optMS ((el[ei + i]?).join) := by
  intro rooms
  induction rooms with
  | nil =>
    intro oi ei
    simp [altRooms]
  | cons room rest ih =>
    intro oi ei
    show ((altRoom room ol el oi ei ::
        altRooms ol el (oi + oddStepsOf room) (ei + evenStepsOf room) rest).map _).sum = _
    rw [List.map_cons, List.sum_cons, altRoom_occ_slices, ih]
    rw [List.map_cons, List.sum_cons, List.map_cons, List.sum_cons]
    rw [sum_range_add_split (fun i => optMS ((ol[oi + i]?).join)) (oddStepsOf room)
      ((rest.map oddStepsOf).sum)]
    rw [sum_range_add_split (fun i => optMS ((el[ei + i]?).join)) (evenStepsOf room)
      ((rest.map evenStepsOf).sum)]
    have hidx1 : ∀ i ∈ Finset.range ((rest.map oddStepsOf).sum),
        optMS ((ol[oi + (oddStepsOf room + i)]?).join)
          = optMS ((ol[oi + oddStepsOf room + i]?).join) := by
      intro i _
      rw [Nat.add_assoc]
    have hidx2 : ∀ i ∈ Finset.range ((rest.map evenStepsOf).sum),
        optMS ((el[ei + (evenStepsOf room + i)]?).join)
          = optMS ((el[ei + evenStepsOf room + i]?).join) := by
      intro i _
      rw [Nat.add_assoc]
    rw [Finset.sum_congr rfl hidx1, Finset.sum_congr rfl hidx2]
    abel

/-- Helper: grouping by branch preserves the roster as a multiset. -/
theorem groups_flatten_MS (s : ExamSession) :
    ((((s.get_students_by_branch.map Prod.snd).flatten : List Student))
        : Multiset Student)
      = (s.students : Multiset Student) := by
  have hstep : ∀ (acc : List (Option String × List Student)) (st : Student),
      ((((addToGroups acc st).map Prod.snd).flatten : List Student) : Multiset Student)
        = (((acc.map Prod.snd).flatten : List Student) : Multiset Student) + {st} := by
    intro acc
    induction acc with
    | nil =>
      intro st
      show ((([st] : List Student)) : Multiset Student) = 0 + {st}
      rw [zero_add]
      rfl
    | cons q rest ihq =>
      intro st
      rcases q with ⟨b, l⟩
      show ((((addToGroups ((b, l) :: rest) st).map Prod.snd).flatten : List Student)
          : Multiset Student) = _
      unfold addToGroups
      by_cases hb : b = st.branch_name
      · rw [if_pos hb]
        show (((l ++ [st]) ++ ((rest.map Prod.snd).flatten) : List Student)
            : Multiset Student) = ((l ++ (rest.map Prod.snd).flatten : List Student)
            : Multiset Student) + {st}
        rw [← Multiset.coe_add, ← Multiset.coe_add, ← Multiset.coe_add]
        show ((l : Multiset Student) + ({st} : Multiset Student)) + _ = _
        abel
      · rw [if_neg hb]
        show ((l ++ (((addToGroups rest st).map Prod.snd).flatten) : List Student)
            : Multiset Student) = _
        rw [← Multiset.coe_add, ihq st]
        show _ = (((l ++ (rest.map Prod.snd).flatten : List Student)) : Multiset Student) + _
        rw [← Multiset.coe_add]
        abel
  have hmain : ∀ (l : List Student) (acc : List (Option String × List Student)),
      ((((l.foldl addToGroups acc).map Prod.snd).flatten : List Student) : Multiset Student)
        = (((acc.map Prod.snd).flatten : List Student) : Multiset Student)
          + (l : Multiset Student) := by
    intro l
    induction l with
    | nil =>
      intro acc
      show _ = _ + ((([] : List Student)) : Multiset Student)
      rw [Multiset.coe_nil, add_zero]
      rfl
    | cons st rest ihl =>
      intro acc
      rw [List.foldl_cons, ihl (addToGroups acc st), hstep acc st]
      show _ = _ + ((st :: rest : List Student) : Multiset Student)
      rw [← Multiset.cons_coe, ← Multiset.singleton_add]
      abel
  have hfin := hmain s.students []
  show ((((s.students.foldl addToGroups []).map Prod.snd).flatten : List Student)
      : Multiset Student) = _
  rw [hfin]
  show (0 : Multiset Student) + _ = _
  rw [zero_add]

/-- Helper: the distribution loop keeps both queues of map-some shape and
preserves the combined student multiset. -/
theorem appendRestSpec_shape (rest : List (List Student)) :
    ∀ e o : List Student,
    ∃ e2 o2 : List Student,
      appendRestSpec rest (e.map some) (o.map some) = (e2.map some, o2.map some) ∧
      (e2 : Multiset Student) + (o2 : Multiset Student)
        = (e : Multiset Student) + (o : Multiset Student)
          + ((rest.flatten : List Student) : Multiset Student) := by
  induction rest with
  | nil =>
    intro e o
    exact ⟨e, o, rfl, by simp⟩
  | cons g tail ih =>
    intro e o
    unfold appendRestSpec
    by_cases hlen : (e.map some).length > (o.map some).length
    · rw [if_pos hlen]
      obtain ⟨e2, o2, heq, hms⟩ := ih e (o ++ g)
      rw [List.map_append] at heq
      refine ⟨e2, o2, heq, ?_⟩
      rw [hms]
      show _ = _ + ((g ++ tail.flatten : List Student) : Multiset Student)
      rw [← Multiset.coe_add, ← Multiset.coe_add]
      abel
    · rw [if_neg hlen]
      obtain ⟨e2, o2, heq, hms⟩ := ih (e ++ g) o
      rw [List.map_append] at heq
      refine ⟨e2, o2, heq, ?_⟩
      rw [hms]
      show _ = _ + ((g ++ tail.flatten : List Student) : Multiset Student)
      rw [← Multiset.coe_add, ← Multiset.coe_add]
      abel

/-- Helper: dropping the placeholder padding recovers the real students. -/
theorem reduceOption_padded (l : List Student) (p : Nat) :
    (l.map some ++ List.replicate p none).reduceOption = l := by
  show (l.map some ++ List.replicate p none).filterMap id = l
  rw [List.filterMap_append, List.filterMap_map]
  have h1 : (List.filterMap (id ∘ some) l) = l := List.filterMap_some l
  rw [h1, List.filterMap_replicate]
  simp

/-- Helper: for a roster with at least two branch groups, the two queues are
map-some lists padded with placeholders, whose real students together form
exactly the roster multiset. -/
theorem queues_decomp (s : ExamSession)
    (hbg : 1 < s.get_students_by_branch.length) :
    ∃ (e o : List Student) (pe po : Nat),
      (create_even_odd_lists (s.get_students_by_branch.map Prod.snd)).1
        = e.map some ++ List.replicate pe none ∧
      (create_even_odd_lists (s.get_students_by_branch.map Prod.snd)).2
        = o.map some ++ List.replicate po none ∧
      (e : Multiset Student) + (o : Multiset Student) = (s.students : Multiset Student) ∧
      (create_even_odd_lists (s.get_students_by_branch.map Prod.snd)).1.reduceOption = e ∧
      (create_even_odd_lists (s.get_students_by_branch.map Prod.snd)).2.reduceOption = o := by
  rcases hgs : s.get_students_by_branch with _ | ⟨p0, rest0⟩
  · rw [hgs] at hbg
    simp at hbg
  rcases rest0 with _ | ⟨p1, rest⟩
  · rw [hgs] at hbg
    simp at hbg
  have hflat := groups_flatten_MS s
  rw [hgs] at hflat
  rw [create_even_odd_lists_eq_padEqual]
  have hdist : distributeGroups (List.map Prod.snd (p0 :: p1 :: rest)) 0 [] []
      = appendRestSpec (rest.map Prod.snd) (p0.2.map some) (p1.2.map some) := by
    show distributeGroups (rest.map Prod.snd) 2 (p0.2.map some) (p1.2.map some) = _
    exact distributeGroups_eq_appendRestSpec _ 2 (by omega) _ _
  rw [hdist]
  obtain ⟨e2, o2, heq, hms⟩ := appendRestSpec_shape (rest.map Prod.snd) p0.2 p1.2
  rw [heq]
  refine ⟨e2, o2, _, _, rfl, rfl, ?_, ?_, ?_⟩
  · rw [hms, ← hflat]
    show _ = (((p0.2 ++ (p1.2 ++ (rest.map Prod.snd).flatten)) : List Student)
        : Multiset Student)
    rw [← Multiset.coe_add, ← Multiset.coe_add]
    abel
  · show (e2.map some ++ List.replicate _ none).reduceOption = e2
    exact reduceOption_padded _ _
  · show (o2.map some ++ List.replicate _ none).reduceOption = o2
    exact reduceOption_padded _ _

/-- Helper: for nonnegative dimensions the capacity sum is the total number
of band steps. -/
theorem capacity_eq_steps (rooms : List Room)
    (hdims : ∀ room ∈ rooms, 0 ≤ room.rows ∧ 0 ≤ room.columns) :
    (rooms.map Room.capacity).sum
      = (((rooms.map oddStepsOf).sum + (rooms.map evenStepsOf).sum : Nat) : Int) := by
  induction rooms with
  | nil => simp
  | cons room rest ih =>
    have hd := hdims room (by simp)
    have hcap1 : room.capacity = ((oddStepsOf room + evenStepsOf room : Nat) : Int) := by
      unfold Room.capacity oddStepsOf evenStepsOf
      have hcols : oddColsN room + evenColsN room = room.columns.toNat := by
        rw [oddColsN_eq, evenColsN_eq]
        omega
      rw [← Nat.add_mul, hcols]
      push_cast
      rw [Int.toNat_of_nonneg hd.2, Int.toNat_of_nonneg hd.1]
      ring
    rw [List.map_cons, List.sum_cons, List.map_cons, List.sum_cons, List.map_cons,
      List.sum_cons, ih (fun r hr => hdims r (by simp [hr])), hcap1]
    push_cast
    ring

/-- Helper: the cardinality of the summed occupant multisets is the summed
occupant count. -/
theorem occ_sum_card (rooms : List Room) :
    Multiset.card ((rooms.map (fun room => ((room.occupants : List Student)
        : Multiset Student))).sum)
      = (rooms.map (fun room => room.occupants.length)).sum := by
  induction rooms with
  | nil => simp
  | cons room rest ih =>
    rw [List.map_cons, List.sum_cons, List.map_cons, List.sum_cons, Multiset.card_add,
      Multiset.coe_card, ih]

/-- Claim C1 (amended): for a session whose rooms all have nonnegative
dimensions, whose roster has at least two branch groups, and whose two
queues each fit inside the cursor steps of their band (the real students of
odd_list are at most the total odd band steps, those of even_list at most
the total even band steps — the original claim fails without this band-fit
condition, and its single-branch case fails because the sequential cursor
restarts per room), allocate_seats returns success and the students seated
across all rooms form exactly the roster multiset: as many occupied seats
as roster members, each roster student in exactly one seat, none dropped
and none duplicated.  The capacity gate condition of the original claim
follows from the band-fit hypotheses, since total capacity equals the total
band steps. -/
theorem allocate_conserves_roster (s : ExamSession)
    (hdims : ∀ room ∈ s.rooms, 0 ≤ room.rows ∧ 0 ≤ room.columns)
    (hbg : 1 < s.get_students_by_branch.length)
    (hodd : (create_even_odd_lists (s.get_students_by_branch.map Prod.snd)).2.reduceOption.length
      ≤ (s.rooms.map oddStepsOf).sum)
    (heven : (create_even_odd_lists (s.get_students_by_branch.map Prod.snd)).1.reduceOption.length
      ≤ (s.rooms.map evenStepsOf).sum) :
    (allocate_seats s).1 = true ∧
    ((allocate_seats s).2.rooms.map (fun room => ((room.occupants : List Student)
        : Multiset Student))).sum = (s.students : Multiset Student) ∧
    ((allocate_seats s).2.rooms.map (fun room => room.occupants.length)).sum
      = s.students.length := by
  obtain ⟨e, o, pe, po, he, ho, hms, hre, hro⟩ := queues_decomp s hbg
  rw [hre] at heven
  rw [hro] at hodd
  have hcard : s.students.length = e.length + o.length := by
    have hc := congrArg Multiset.card hms
    rw [Multiset.card_add, Multiset.coe_card, Multiset.coe_card, Multiset.coe_card] at hc
    omega
  have hcap : (s.students.length : Int) ≤ s.get_total_capacity := by
    show _ ≤ (s.rooms.map Room.capacity).sum
    rw [capacity_eq_steps s.rooms hdims]
    have hle : s.students.length
        ≤ (s.rooms.map oddStepsOf).sum + (s.rooms.map evenStepsOf).sum := by
      omega
    exact_mod_cast hle
  have hallo := allocate_seats_multi s hcap hbg hdims
  have hMSeq : ((allocate_seats s).2.rooms.map
      (fun room => ((room.occupants : List Student) : Multiset Student))).sum
        = (s.students : Multiset Student) := by
    rw [hallo]
    show ((altRooms (create_even_odd_lists (s.get_students_by_branch.map Prod.snd)).2
        (create_even_odd_lists (s.get_students_by_branch.map Prod.snd)).1
        0 0 s.rooms).map _).sum = _
    rw [altRooms_occMS]
    have hzero1 : ∀ i ∈ Finset.range ((s.rooms.map oddStepsOf).sum),
        optMS (((create_even_odd_lists (s.get_students_by_branch.map Prod.snd)).2[0 + i]?).join)
          = optMS (((o.map some ++ List.replicate po none)[i]?).join) := by
      intro i _
      rw [Nat.zero_add, ho]
    have hzero2 : ∀ i ∈ Finset.range ((s.rooms.map evenStepsOf).sum),
        optMS (((create_even_odd_lists (s.get_students_by_branch.map Prod.snd)).1[0 + i]?).join)
          = optMS (((e.map some ++ List.replicate pe none)[i]?).join) := by
      intro i _
      rw [Nat.zero_add, he]
    rw [Finset.sum_congr rfl hzero1, Finset.sum_congr rfl hzero2]
    rw [slice_sum o po _ hodd, slice_sum e pe _ heven]
    rw [← hms]
    exact add_comm _ _
  refine ⟨by rw [hallo], hMSeq, ?_⟩
  have hcnt := congrArg Multiset.card hMSeq
  rw [occ_sum_card, Multiset.coe_card] at hcnt
  exact hcnt

/-- Witness for claim C1: the conservation theorem applied to the 3 ECE +
3 CSE, one 3x3 room session, where both band-fit conditions hold. -/
theorem allocate_conserves_roster_witness :
    ((∀ room ∈ twoBranchSession.rooms, 0 ≤ room.rows ∧ 0 ≤ room.columns) ∧
     1 < twoBranchSession.get_students_by_branch.length ∧
     (create_even_odd_lists
        (twoBranchSession.get_students_by_branch.map Prod.snd)).2.reduceOption.length
       ≤ (twoBranchSession.rooms.map oddStepsOf).sum ∧
     (create_even_odd_lists
        (twoBranchSession.get_students_by_branch.map Prod.snd)).1.reduceOption.length
       ≤ (twoBranchSession.rooms.map evenStepsOf).sum) ∧
    ((allocate_seats twoBranchSession).1 = true ∧
     ((allocate_seats twoBranchSession).2.rooms.map
        (fun room => ((room.occupants : List Student) : Multiset Student))).sum
       = (twoBranchSession.students : Multiset Student) ∧
     ((allocate_seats twoBranchSession).2.rooms.map
        (fun room => room.occupants.length)).sum
       = twoBranchSession.students.length) :=
  ⟨⟨by decide, by decide, by decide, by decide⟩,
   allocate_conserves_roster twoBranchSession (by decide) (by decide) (by decide) (by decide)⟩

/-- Helper: folding a function that ignores its elements returns the start. -/
theorem foldl_ignore {α β : Type} (f : α → β → α) (h : ∀ a b, f a b = a) :
    ∀ (l : List β) (a : α), l.foldl f a = a := by
  intro l
  induction l with
  | nil => intro a; rfl
  | cons b rest ih =>
    intro a
    rw [List.foldl_cons, h a b, ih a]

/-- Helper: a cleared room with a nonpositive dimension has no occupants. -/
theorem clear_nonpos_occ (room : Room)
    (h : room.rows ≤ 0 ∨ room.columns ≤ 0) :
    room.clear_all_seats.occupants = [] := by
  unfold Room.clear_all_seats Room.occupants
  rcases h with h | h
  · have h0 : room.rows.toNat = 0 := by omega
    rw [h0]
    rfl
  · have h0 : room.columns.toNat = 0 := by omega
    rw [h0]
    show ((List.replicate room.rows.toNat ([] : List (Option Student))).map
      (fun rw => rw.filterMap id)).flatten = []
    rw [List.map_replicate]
    show (List.replicate room.rows.toNat ([] : List Student)).flatten = []
    induction room.rows.toNat with
    | zero => rfl
    | succ n ihn =>
      rw [List.replicate_succ, List.flatten_cons, List.nil_append, ihn]

/-- Helper: the alternating walk does nothing on a room with a nonpositive
dimension: no cell is written and neither cursor advances. -/
theorem alternating_nonpos (room : Room)
    (h : room.rows ≤ 0 ∨ room.columns ≤ 0)
    (even_list odd_list : List (Option Student)) (oi ei : Nat) :
    allocate_alternating_seats room even_list odd_list oi ei = (room, oi, ei) := by
  have hunfold : allocate_alternating_seats room even_list odd_list oi ei
      = ((band_walk (band_walk room odd_list (pyRange1 ((room.columns + 1) / 2))
            (fun odd_col => odd_col * 2 - 1 - 1) room.rows oi).1 even_list
            (pyRange1 (room.columns - (room.columns + 1) / 2))
            (fun even_col => even_col * 2 - 1) room.rows ei).1,
         (band_walk room odd_list (pyRange1 ((room.columns + 1) / 2))
            (fun odd_col => odd_col * 2 - 1 - 1) room.rows oi).2,
         (band_walk (band_walk room odd_list (pyRange1 ((room.columns + 1) / 2))
            (fun odd_col => odd_col * 2 - 1 - 1) room.rows oi).1 even_list
            (pyRange1 (room.columns - (room.columns + 1) / 2))
            (fun even_col => even_col * 2 - 1) room.rows ei).2) := rfl
  rcases h with h | h
  · have hrows0 : room.rows.toNat = 0 := by omega
    have hband : ∀ (lst : List (Option Student)) (cols : List Int) (colMap : Int → Int)
        (rm : Room) (k : Nat), band_walk rm lst cols colMap room.rows k = (rm, k) := by
      intro lst cols colMap rm k
      unfold band_walk
      have hrw : ∀ (acc : Room × Nat) (col : Int),
          row_walk acc.1 lst (colMap col) room.rows acc.2 = acc := by
        intro acc col
        unfold row_walk pyRange1
        rw [hrows0]
        rfl
      exact foldl_ignore _ hrw cols (rm, k)
    rw [hunfold, hband, hband]
  · have hodd0 : ((room.columns + 1) / 2).toNat = 0 := by omega
    have heven0 : (room.columns - (room.columns + 1) / 2).toNat = 0 := by omega
    have hlist1 : pyRange1 ((room.columns + 1) / 2) = [] := by
      unfold pyRange1
      rw [hodd0]
      rfl
    have hlist2 : pyRange1 (room.columns - (room.columns + 1) / 2) = [] := by
      unfold pyRange1
      rw [heven0]
      rfl
    rw [hunfold, hlist1, hlist2]
    rfl

/-- Helper: the sequential walk does nothing on a room with a nonpositive
dimension. -/
theorem sequential_nonpos (room : Room)
    (h : room.rows ≤ 0 ∨ room.columns ≤ 0)
    (students : List (Option Student)) :
    allocate_sequential_seats room students = room := by
  unfold allocate_sequential_seats
  rcases h with h | h
  · have hrows0 : room.rows.toNat = 0 := by omega
    have hinner : ∀ (acc : Room × Nat) (col : Int),
        (pyRange room.rows).foldl (fun acc2 rowv =>
          let rm := acc2.1
          let k := acc2.2
          let rm2 :=
            if h2 : k < students.length then
              match students.get ⟨k, h2⟩ with
              | some student => (rm.set_seat rowv col student).1
              | none => rm
            else rm
          (rm2, k + 1)) acc = acc := by
      intro acc col
      unfold pyRange
      rw [hrows0]
      rfl
    rw [foldl_ignore _ hinner (pyRange room.columns) (room, 0)]
  · have hcols0 : room.columns.toNat = 0 := by omega
    have hlist : pyRange room.columns = [] := by
      unfold pyRange
      rw [hcols0]
      rfl
    rw [hlist]
    rfl

/-- Helper: one step of the room loop appends exactly one processed room,
and that room is empty whenever its dimensions are nonpositive. -/
theorem allocate_room_step_decomp (bg : List (Option String × List Student))
    (el ol : List (Option Student)) (acc : List Room × Nat × Nat) (room : Room) :
    ∃ rm2 : Room,
      (allocate_room_step bg el ol acc room).1 = acc.1 ++ [rm2] ∧
      ((room.rows ≤ 0 ∨ room.columns ≤ 0) → rm2.occupants = []) := by
  unfold allocate_room_step
  by_cases h1 : (el.isEmpty && ol.isEmpty) = true
  · rw [if_pos h1]
    exact ⟨room.clear_all_seats, rfl, fun hd => clear_nonpos_occ room hd⟩
  · rw [if_neg h1]
    by_cases h2 : bg.length > 1
    · rw [if_pos h2]
      refine ⟨(allocate_alternating_seats room.clear_all_seats el ol acc.2.1 acc.2.2).1,
        rfl, fun hd => ?_⟩
      rw [alternating_nonpos room.clear_all_seats (by exact hd) el ol acc.2.1 acc.2.2]
      exact clear_nonpos_occ room hd
    · rw [if_neg h2]
      refine ⟨allocate_sequential_seats room.clear_all_seats (el ++ ol), rfl, fun hd => ?_⟩
      rw [sequential_nonpos room.clear_all_seats (by exact hd) (el ++ ol)]
      exact clear_nonpos_occ room hd

/-- Helper: the whole room loop yields one processed room per input room, in
order, and processed rooms with nonpositive dimensions are empty. -/
theorem allocate_fold_parts (bg : List (Option String × List Student))
    (el ol : List (Option Student)) :
    ∀ (rooms : List Room) (acc : List Room × Nat × Nat),
    ∃ processed : List Room,
      (rooms.foldl (allocate_room_step bg el ol) acc).1 = acc.1 ++ processed ∧
      processed.length = rooms.length ∧
      ∀ k, ∀ hk : k < rooms.length,
        ((rooms.get ⟨k, hk⟩).rows ≤ 0 ∨ (rooms.get ⟨k, hk⟩).columns ≤ 0) →
        (processed.getD k (mkRoom "" 0 0)).occupants = [] := by
  intro rooms
  induction rooms with
  | nil =>
    intro acc
    exact ⟨[], by simp, rfl, fun k hk => absurd hk (by simp)⟩
  | cons room rest ih =>
    intro acc
    obtain ⟨rm2, hstep, hrm2⟩ := allocate_room_step_decomp bg el ol acc room
    obtain ⟨processed, hfold, hlen, hinert⟩ :=
      ih (allocate_room_step bg el ol acc room)
    refine ⟨rm2 :: processed, ?_, by simp [hlen], ?_⟩
    · rw [List.foldl_cons] at *
      rw [hfold, hstep, List.append_assoc]
      rfl
    · intro k hk hd
      cases k with
      | zero => exact hrm2 hd
      | succ k2 =>
        rw [List.getD_cons_succ]
        exact hinert k2 (by simpa using hk) hd

/-- Claim C9 (amended): a room with a nonpositive dimension is never written
by allocate_seats — after a successful allocation its grid holds no
students — and when a dimension is exactly zero its capacity is zero; but a
negative dimension contributes rows*columns to the session total capacity,
which is negative (or even positive when both dimensions are negative),
not zero as the claim states. -/
theorem nonpositive_room_inert (s : ExamSession) (k : Nat)
    (hk : k < s.rooms.length)
    (hdim : (s.rooms.get ⟨k, hk⟩).rows ≤ 0 ∨ (s.rooms.get ⟨k, hk⟩).columns ≤ 0) :
    ((allocate_seats s).1 = true →
      (((allocate_seats s).2.rooms.getD k (mkRoom "" 0 0)).occupants = [])) ∧
    (((s.rooms.get ⟨k, hk⟩).rows = 0 ∨ (s.rooms.get ⟨k, hk⟩).columns = 0) →
      (s.rooms.get ⟨k, hk⟩).capacity = 0) := by
  constructor
  · intro hsucc
    by_cases hb : s.has_sufficient_capacity
    · unfold allocate_seats
      rw [hb]
      simp only [Bool.not_true, Bool.false_eq_true, if_false]
      obtain ⟨processed, hfold, hlen, hinert⟩ :=
        allocate_fold_parts s.get_students_by_branch
          (create_even_odd_lists (s.get_students_by_branch.map Prod.snd)).1
          (create_even_odd_lists (s.get_students_by_branch.map Prod.snd)).2
          s.rooms ([], 0, 0)
      show ((s.rooms.foldl (allocate_room_step s.get_students_by_branch
          (create_even_odd_lists (s.get_students_by_branch.map Prod.snd)).1
          (create_even_odd_lists (s.get_students_by_branch.map Prod.snd)).2)
          ([], 0, 0)).1.getD k (mkRoom "" 0 0)).occupants = []
      rw [hfold, List.nil_append]
      exact hinert k hk hdim
    · exfalso
      unfold allocate_seats at hsucc
      rw [Bool.not_eq_true] at hb
      rw [hb] at hsucc
      simp at hsucc
  · intro hz
    unfold Room.capacity
    rcases hz with hz | hz <;> rw [hz] <;> ring

/-- Witness for claim C9: in zeroRowSession the gate passes, the zero-rows
room stays empty after allocation, and its capacity is zero. -/
theorem nonpositive_room_inert_witness :
    (0 < zeroRowSession.rooms.length ∧
     ((zeroRowSession.rooms.get ⟨0, by decide⟩).rows ≤ 0 ∨
      (zeroRowSession.rooms.get ⟨0, by decide⟩).columns ≤ 0)) ∧
    (((allocate_seats zeroRowSession).1 = true →
      (((allocate_seats zeroRowSession).2.rooms.getD 0 (mkRoom "" 0 0)).occupants = [])) ∧
     (((zeroRowSession.rooms.get ⟨0, by decide⟩).rows = 0 ∨
       (zeroRowSession.rooms.get ⟨0, by decide⟩).columns = 0) →
      (zeroRowSession.rooms.get ⟨0, by decide⟩).capacity = 0)) :=
  ⟨⟨by decide, by decide⟩,
   nonpositive_room_inert zeroRowSession 0 (by decide) (by decide)⟩

/-- Witness for claim C10: the occupied 1x1 room is silently overwritten in
bounds, and an out-of-bounds write raises leaving the room untouched. -/
theorem set_seat_frame_witness :
    occupiedRoom.cell 0 0 = some (studentECE 1) ∧
    (occupiedRoom.set_seat 0 0 (studentCSE 1)).1.cell 0 0 = some (studentCSE 1) ∧
    occupiedRoom.set_seat 2 0 (studentCSE 1) = (occupiedRoom, true) :=
  ⟨by decide,
   ((set_seat_frame_spec occupiedRoom 0 0 (studentCSE 1) (by constructor <;> decide)).1
     (by decide)).2.2.2.2.1,
   (set_seat_frame_spec occupiedRoom 2 0 (studentCSE 1) (by constructor <;> decide)).2
     (by decide)⟩

/-- Helper: get_empty_seats_count counts the empty cells of the scan. -/
theorem empty_count_cells (room : Room) :
    room.get_empty_seats_count = room.cells.countP (fun cell => cell.isNone) := rfl

/-- Helper: folding over a flatMap folds group by group. -/
theorem foldl_flatMap {α β γ : Type} (f : α → List β) (g : γ → β → γ) :
    ∀ (l : List α) (init : γ),
    (l.flatMap f).foldl g init = l.foldl (fun acc a => (f a).foldl g acc) init := by
  intro l
  induction l with
  | nil => intro init; rfl
  | cons a rest ih =>
    intro init
    rw [List.flatMap_cons, List.foldl_append, List.foldl_cons, ih]

/-- Helper: the branch_distribution loop is the distStep fold over the cell
scan. -/
theorem distribution_as_cells (room : Room) :
    room_branch_distribution room = room.cells.foldl distStep [] := by
  unfold room_branch_distribution Room.cells
  rw [foldl_flatMap]
  congr 1
  funext acc r
  rw [List.foldl_map]
  refine congrFun (congrFun (congrArg List.foldl ?_) acc) (List.range room.columns.toNat)
  funext d2 c
  cases room.cell r c with
  | none => rfl
  | some st => cases st.branch_name <;> rfl

/-- Helper: incrementing one key adds one to the summed counts. -/
theorem incrKey_sum (d : List (String × Nat)) (b : String) :
    ((incrKey d b).map Prod.snd).sum = (d.map Prod.snd).sum + 1 := by
  induction d with
  | nil => rfl
  | cons q rest ih =>
    rcases q with ⟨k0, n⟩
    unfold incrKey
    by_cases hk : k0 = b
    · rw [if_pos hk]
      simp only [List.map_cons, List.sum_cons]
      omega
    · rw [if_neg hk]
      simp only [List.map_cons, List.sum_cons, ih]
      omega

/-- Helper: the distStep fold counts exactly the truthy occupied cells. -/
theorem distStep_fold_sum :
    ∀ (cells : List (Option Student)) (d : List (String × Nat)),
    ((cells.foldl distStep d).map Prod.snd).sum
      = (d.map Prod.snd).sum + cells.countP truthyCell := by
  intro cells
  induction cells with
  | nil => intro d; simp
  | cons cell rest ih =>
    intro d
    rw [List.foldl_cons, ih, List.countP_cons]
    cases cell with
    | none => simp [distStep, truthyCell]
    | some st =>
      cases hb : st.branch_name with
      | none => simp [distStep, truthyCell, hb]
      | some b =>
        by_cases hbe : b = ""
        · simp [distStep, truthyCell, hb, hbe]
        · simp only [distStep, truthyCell, hb, if_neg hbe, incrKey_sum,
            bne_iff_ne, ne_eq]
          have hb2 : (!(b == "")) = true := by
            simpa using hbe
          rw [hb2]
          simp
          omega

/-- Helper: reading every index of a list back gives the list. -/
theorem range_getD_map {α : Type} (l : List α) (dflt : α) :
    (List.range l.length).map (fun c => l.getD c dflt) = l := by
  apply List.ext_get
  · simp
  · intro n h1 h2
    simp only [List.get_eq_getElem, List.getElem_map, List.getElem_range]
    rw [List.getD_eq_getElem l dflt h2]

/-- Helper: the seated students of a row are as many as its occupied cells. -/
theorem filterMap_id_length (l : List (Option Student)) :
    (l.filterMap id).length = l.countP (fun cell => cell.isSome) := by
  induction l with
  | nil => rfl
  | cons a rest ih =>
    cases a with
    | none => simpa [List.countP_cons] using ih
    | some st => simp [List.countP_cons, ih]

/-- Helper: counting over a flatMap adds up group counts. -/
theorem countP_flatMap {α β : Type} (f : α → List β) (p : β → Bool) :
    ∀ l : List α, (l.flatMap f).countP p = (l.map (fun a => (f a).countP p)).sum := by
  intro l
  induction l with
  | nil => rfl
  | cons a rest ih =>
    rw [List.flatMap_cons, List.countP_append, ih, List.map_cons, List.sum_cons]

/-- Helper: the occupant count of a well-formed room equals the occupied
cells of its scan. -/
theorem occupants_length_cells (room : Room) (hWF : room.WF) :
    room.occupants.length = room.cells.countP (fun cell => cell.isSome) := by
  unfold Room.occupants Room.cells
  rw [List.length_flatten, List.map_map, countP_flatMap]
  have hgrid : room.seating_grid.map (List.length ∘ fun rw => rw.filterMap id)
      = (List.range room.seating_grid.length).map
          (fun r => (room.seating_grid.getD r []).filterMap id |>.length) := by
    conv_lhs => rw [← range_getD_map room.seating_grid []]
    rw [List.map_map]
    rfl
  rw [hgrid, hWF.1]
  refine congrArg List.sum (List.map_congr_left ?_)
  intro r hr
  have hrlt : r < room.seating_grid.length := by
    rw [hWF.1]
    simpa using hr
  have hrow : room.seating_grid.getD r [] ∈ room.seating_grid := by
    rw [List.getD_eq_getElem _ _ hrlt]
    exact List.getElem_mem hrlt
  have hrowlen : (room.seating_grid.getD r []).length = room.columns.toNat :=
    hWF.2 _ hrow
  rw [filterMap_id_length]
  have hcells : (List.range room.columns.toNat).map (fun c => room.cell r c)
      = room.seating_grid.getD r [] := by
    unfold Room.cell
    rw [← hrowlen]
    exact range_getD_map _ none
  rw [hcells]

/-- Helper: the scan of a room has one entry per seat. -/
theorem cells_length (room : Room) :
    room.cells.length = room.rows.toNat * room.columns.toNat := by
  unfold Room.cells
  rw [List.length_flatMap]
  have hconst : (List.range room.rows.toNat).map
      (List.length ∘ fun r => (List.range room.columns.toNat).map (fun c => room.cell r c))
        = (List.range room.rows.toNat).map (fun _ => room.columns.toNat) := by
    refine List.map_congr_left (fun r _ => ?_)
    simp
  rw [hconst, List.map_const', List.sum_replicate, List.length_range]
  simp [Nat.mul_comm]

/-- Helper: occupied and empty cells partition the scan. -/
theorem cells_some_none (l : List (Option Student)) :
    l.countP (fun cell => cell.isSome) + l.countP (fun cell => cell.isNone) = l.length := by
  induction l with
  | nil => rfl
  | cons a rest ih =>
    rw [List.countP_cons, List.countP_cons, List.length_cons]
    cases a with
    | none =>
      rw [if_neg (by simp), if_pos (by simp)]
      omega
    | some st =>
      rw [if_pos (by simp), if_neg (by simp)]
      omega

/-- Helper: any student occupying a scanned cell is one of the occupants. -/
theorem cells_occupant_mem (room : Room) (hWF : room.WF) (st : Student)
    (h : some st ∈ room.cells) : st ∈ room.occupants := by
  unfold Room.cells at h
  rw [List.mem_flatMap] at h
  obtain ⟨r, _, hmem⟩ := h
  rw [List.mem_map] at hmem
  obtain ⟨c, _, hcell⟩ := hmem
  unfold Room.cell at hcell
  have hrowmem : some st ∈ room.seating_grid.getD r [] := by
    by_cases hlt : c < (room.seating_grid.getD r []).length
    · rw [List.getD_eq_getElem _ _ hlt] at hcell
      rw [← hcell]
      exact List.getElem_mem hlt
    · rw [List.getD_eq_getElem?_getD, List.getElem?_eq_none (by omega)] at hcell
      exact absurd hcell (by simp)
  have hrlt : r < room.seating_grid.length := by
    by_contra hge
    rw [List.getD_eq_getElem?_getD, List.getElem?_eq_none (by omega)] at hrowmem
    simp at hrowmem
  have hrowg : room.seating_grid.getD r [] ∈ room.seating_grid := by
    rw [List.getD_eq_getElem _ _ hrlt]
    exact List.getElem_mem hrlt
  unfold Room.occupants
  rw [List.mem_flatten]
  refine ⟨(room.seating_grid.getD r []).filterMap id, ?_, ?_⟩
  · rw [List.mem_map]
    exact ⟨_, hrowg, rfl⟩
  · rw [List.mem_filterMap]
    exact ⟨some st, hrowmem, rfl⟩

/-- Helper: when every occupant has a truthy branch, the truthy count is the
occupied count. -/
theorem countP_truthy_eq (room : Room) (hWF : room.WF)
    (hbr : ∀ st ∈ room.occupants, st.branch_name ≠ none ∧ st.branch_name ≠ some "") :
    room.cells.countP truthyCell = room.cells.countP (fun cell => cell.isSome) := by
  refine List.countP_congr (fun cell hc => ?_)
  cases cell with
  | none => simp [truthyCell]
  | some st =>
    have hocc := cells_occupant_mem room hWF st hc
    obtain ⟨h1, h2⟩ := hbr st hocc
    cases hb : st.branch_name with
    | none => exact absurd hb h1
    | some b =>
      have hbne : ¬(b == "") = true := by
        simp only [beq_iff_eq]
        intro hbe
        exact h2 (by rw [hb, hbe])
      simp [truthyCell, hb, hbne]

/-- Helper: dict assignment under a fresh key appends. -/
theorem dict_set_fresh (l : List (String × RoomStats)) (k : String) (v : RoomStats)
    (h : k ∉ l.map Prod.fst) : dict_set l k v = l ++ [(k, v)] := by
  induction l with
  | nil => rfl
  | cons q rest ih =>
    rcases q with ⟨k0, v0⟩
    rw [List.map_cons, List.mem_cons] at h
    push_neg at h
    unfold dict_set
    rw [if_neg (fun he => h.1 he.symm), ih h.2, List.cons_append]

/-- Helper: with pairwise-distinct room numbers the rooms_stats fold is a
plain map over the rooms. -/
theorem rooms_stats_eq (mk : Room → RoomStats) :
    ∀ (rooms : List Room) (acc : List (String × RoomStats)),
    (∀ room ∈ rooms, room.room_no ∉ acc.map Prod.fst) →
    (rooms.map Room.room_no).Nodup →
    rooms.foldl (fun acc2 room => dict_set acc2 room.room_no (mk room)) acc
      = acc ++ rooms.map (fun room => (room.room_no, mk room)) := by
  intro rooms
  induction rooms with
  | nil => intro acc _ _; simp
  | cons r rest ih =>
    intro acc hfresh hnd
    rw [List.map_cons, List.nodup_cons] at hnd
    rw [List.foldl_cons,
      dict_set_fresh acc r.room_no (mk r) (hfresh r (List.mem_cons_self r rest)),
      ih _ ?_ hnd.2]
    · simp
    · intro room hroom
      rw [List.map_append, List.mem_append]
      rintro (hin | hin)
      · exact hfresh room (List.mem_cons_of_mem r hroom) hin
      · simp only [List.map_cons, List.map_nil, List.mem_singleton] at hin
        exact hnd.1 (hin ▸ List.mem_map_of_mem Room.room_no hroom)

/-- Helper: casting a sum of naturals to Int distributes over the list. -/
theorem sum_int_cast (l : List Nat) :
    ((l.sum : Nat) : Int) = (l.map (fun n : Nat => (n : Int))).sum := by
  induction l with
  | nil => rfl
  | cons a rest ih =>
    rw [List.sum_cons, List.map_cons, List.sum_cons, ← ih]
    push_cast
    ring

/-- Helper: capacity of a room with nonnegative dimensions is the seat count
of its scan. -/
theorem capacity_cells (room : Room) (h1 : 0 ≤ room.rows) (h2 : 0 ≤ room.columns) :
    room.capacity = ((room.cells.length : Nat) : Int) := by
  rw [cells_length]
  show room.rows * room.columns = _
  push_cast
  rw [Int.toNat_of_nonneg h1, Int.toNat_of_nonneg h2]

/-- Helper: per-room statistics identities for a well-formed room whose
occupants all carry a truthy branch label. -/
theorem room_stats_correct (room : Room) (hWF : room.WF)
    (h1 : 0 ≤ room.rows) (h2 : 0 ≤ room.columns)
    (hbr : ∀ st ∈ room.occupants, st.branch_name ≠ none ∧ st.branch_name ≠ some "") :
    ((room_branch_distribution room).map Prod.snd).sum = room.occupants.length ∧
    room.capacity - (room.get_empty_seats_count : Int) = (room.occupants.length : Int) := by
  have hocc := occupants_length_cells room hWF
  constructor
  · rw [distribution_as_cells, distStep_fold_sum]
    simp only [List.map_nil, List.sum_nil, Nat.zero_add]
    rw [countP_truthy_eq room hWF hbr, ← hocc]
  · have hpart := cells_some_none room.cells
    rw [empty_count_cells, capacity_cells room h1 h2, hocc]
    omega

/-- C8 (amended). For a session whose rooms have well-formed grids with
nonnegative dimensions, pairwise-distinct room numbers, and only seated
students with a truthy branch label, generate_statistics round-trips: the
per-branch occupancy counts summed over rooms_stats equal the summed
assigned_seats, and both equal the total number of seated students across
all grids. (As stated the claim fails: statistics_branch_sum_counterexample
exhibits a seated student whose branch_name is the empty string, counted by
assigned_seats but absent from every branch_distribution.) -/
theorem statistics_round_trip (s : ExamSession)
    (hWF : ∀ room ∈ s.rooms, room.WF ∧ 0 ≤ room.rows ∧ 0 ≤ room.columns)
    (hbr : ∀ room ∈ s.rooms, ∀ st ∈ room.occupants,
      st.branch_name ≠ none ∧ st.branch_name ≠ some "")
    (hnd : (s.rooms.map Room.room_no).Nodup) :
    (((generate_statistics s).rooms_stats.map
        (fun p => ((p.2.branch_distribution.map Prod.snd).sum : Int))).sum
      = ((generate_statistics s).rooms_stats.map (fun p => p.2.assigned_seats)).sum)
    ∧ (((generate_statistics s).rooms_stats.map (fun p => p.2.assigned_seats)).sum
      = (((s.rooms.map (fun room : Room => room.occupants.length)).sum : Nat) : Int)) := by
  have hstats : (generate_statistics s).rooms_stats
      = s.rooms.map (fun room => (room.room_no,
          ({ capacity := room.capacity
             assigned_seats := room.capacity - (room.get_empty_seats_count : Int)
             branch_distribution := room_branch_distribution room } : RoomStats))) := by
    show s.rooms.foldl _ [] = _
    rw [rooms_stats_eq _ s.rooms [] (by simp) hnd]
    simp
  rw [hstats, List.map_map, List.map_map, sum_int_cast, List.map_map]
  constructor
  · refine congrArg List.sum (List.map_congr_left (fun room hroom => ?_))
    obtain ⟨hw, hr1, hr2⟩ := hWF room hroom
    obtain ⟨hA, hB⟩ := room_stats_correct room hw hr1 hr2 (hbr room hroom)
    show (((room_branch_distribution room).map Prod.snd).sum : Int) = _
    rw [hA]
    exact hB.symm
  · refine congrArg List.sum (List.map_congr_left (fun room hroom => ?_))
    obtain ⟨hw, hr1, hr2⟩ := hWF room hroom
    obtain ⟨_, hB⟩ := room_stats_correct room hw hr1 hr2 (hbr room hroom)
    exact hB

/-- Witness for statistics_round_trip: a two-student two-branch room where
both summed statistics equal the two seated students. -/
theorem statistics_round_trip_witness :
    (((generate_statistics statsSession).rooms_stats.map
        (fun p => ((p.2.branch_distribution.map Prod.snd).sum : Int))).sum
      = ((generate_statistics statsSession).rooms_stats.map
          (fun p => p.2.assigned_seats)).sum)
    ∧ (((generate_statistics statsSession).rooms_stats.map
          (fun p => p.2.assigned_seats)).sum
      = (((statsSession.rooms.map (fun room : Room => room.occupants.length)).sum : Nat) : Int)) :=
  statistics_round_trip statsSession
    (by
      intro room hroom
      rw [show statsSession.rooms = [statsRoom] from rfl, List.mem_singleton] at hroom
      subst hroom
      exact ⟨⟨rfl, by decide⟩, by decide, by decide⟩)
    (by
      intro room hroom
      rw [show statsSession.rooms = [statsRoom] from rfl, List.mem_singleton] at hroom
      subst hroom
      decide)
    (by decide)

end Seating
